import Mathlib

/-!
# Verification of the ufomerge glyph/layout merge engine

A shallow embedding, in Lean 4, of the core of `ufomerge`
(`Lib/ufomerge/__init__.py` and `Lib/ufomerge/layout.py`): the
glyph-container/sequence filter, the layout closure and its fixpoint
loop, the layout subsetting (`filter_layout`) pass, named-class
deduplication, the kerning merge and the merge driver.

Modelling conventions, used throughout:

* Glyph names are `String`s; the Python `set` `final_glyphset` is a
  `Finset String` (membership and size are the only operations the
  source performs on it).
* `dict`s keyed by strings are insertion-ordered association lists,
  mirroring Python dict semantics (updating an existing key keeps its
  position, new keys are appended).
* The feaLib AST is represented by closed inductive types.  Payload the
  source never inspects (value records, anchors, locations) is elided.
* The source mutates AST nodes in place; the embedding passes and
  returns values instead.  The one place where object identity is
  semantically relevant — the shared named-class definitions that
  `filter_glyph_container` must copy before editing — is additionally
  modelled with an explicit object store (`ClassHeap`) so that
  "does not mutate the shared definition" is expressible.
-/

/-! ## Data model: glyphs, containers, the per-merge class-reference table -/

/-- Glyph names, as in the UFO object model. -/
abbrev Glyph := String

/-- The working glyph set (`final_glyphset` in the source): a Python
`set` of glyph names, used only for membership tests and its size. -/
abbrev GlyphSet := Finset Glyph

/-- A feaLib glyph container, as consumed by
`UFOMerger.filter_glyph_container`: `ast.GlyphName` (single glyph),
`ast.GlyphClass` (inline class), `ast.GlyphClassName` (reference to a
named class definition, carried here inline as its glyph list), and
`ast.MarkClassName` (reference to a mark class; the glyph→anchor
mapping's anchor payload is never inspected by the filter, so only the
keys are modelled).  A bare `str` container is coerced by the source to
`ast.GlyphName` on entry, so it needs no constructor of its own.  The
`ast.MarkClass([])` value the source returns for an emptied mark class
is an empty container whose only observed property is an empty
`glyphSet()`; it is represented by `glyphClass []`. -/
inductive GlyphContainer where
  | glyphName (glyph : Glyph)
  | glyphClass (glyphs : List Glyph)
  | glyphClassName (name : String) (classGlyphs : List Glyph)
  | markClassName (name : String) (classGlyphs : List Glyph)
deriving DecidableEq

/-- `container.glyphSet()` of feaLib: the ordered list of glyphs a
container denotes (feaLib returns a tuple; duplicates are preserved). -/
def GlyphContainer.glyphSet : GlyphContainer → List Glyph
  | .glyphName g => [g]
  | .glyphClass gs => gs
  | .glyphClassName _ gs => gs
  | .markClassName _ gs => gs

/-- The per-merge table `class_name_references`: a
`defaultdict[str, list[ast.GlyphClassName]]` mapping each original
class name to the copies minted for its reference sites, in call order.
Each recorded copy is represented by its (filtered) glyph list, which
is all `_deduplicate_class_defs` reads from it. -/
abbrev Refs := List (String × List (List Glyph))

/-- Look up the copy list recorded for `name` (empty for a fresh key,
mirroring `defaultdict(list)`). -/
def refsLookup (refs : Refs) (name : String) : List (List Glyph) :=
  ((refs.find? (fun p => p.1 = name)).map (fun p => p.2)).getD []

/-- Append one recorded copy to `name`'s list, keeping dict insertion
order: an existing key keeps its position, a new key goes to the end. -/
def refsAdd (refs : Refs) (name : String) (content : List Glyph) : Refs :=
  if refs.any (fun p => p.1 = name) then
    refs.map (fun p => if p.1 = name then (p.1, p.2 ++ [content]) else p)
  else
    refs ++ [(name, [content])]

/-! ## The glyph-container / sequence filter (`LayoutFilter`) -/

/-- `UFOMerger.filter_glyphs`: restrict a glyph list to the glyph set. -/
def filterGlyphs (gset : GlyphSet) (glyphs : List Glyph) : List Glyph :=
  glyphs.filter (fun g => g ∈ gset)

/-- `UFOMerger.filter_glyph_container`.  The source mutates inline
classes and mark-class mappings in place and deep-copies a referenced
named class before editing it; the embedding returns the resulting
container and the updated `class_name_references` table.  For
`GlyphClassName` the copy is renamed `f"{name}_{len(copy_list)}"`,
recorded in the table, and then filtered (so the table holds the
filtered content, the copy being the same object). -/
def filterGlyphContainer (gset : GlyphSet) (refs : Refs) :
    GlyphContainer → GlyphContainer × Refs
  | .glyphName g =>
      (if g ∈ gset then .glyphName g else .glyphClass [], refs)
  | .glyphClass gs =>
      (.glyphClass (filterGlyphs gset gs), refs)
  | .glyphClassName name gs =>
      let n := (refsLookup refs name).length
      let filtered := filterGlyphs gset gs
      let refs' := refsAdd refs name filtered
      (if filtered.isEmpty then .glyphClass []
       else .glyphClassName (name ++ "_" ++ Nat.repr n) filtered, refs')
  | .markClassName name gs =>
      -- `filter_glyph_mapping` restricted to the mapping's keys
      let filtered := filterGlyphs gset gs
      (if filtered.isEmpty then .glyphClass []
       else .markClassName name filtered, refs)

/-- `UFOMerger.filter_sequence` over a context-slot list.  Slots coming
out of the feaLib parser are always containers (the `isinstance(slot,
list)` branch of the source filters a raw glyph list exactly as an
inline class is filtered, so raw-list slots are represented as
`glyphClass` containers). -/
def filterSequence (gset : GlyphSet) : Refs → List GlyphContainer → List GlyphContainer × Refs
  | refs, [] => ([], refs)
  | refs, c :: rest =>
      let (c', refs') := filterGlyphContainer gset refs c
      let (rest', refs'') := filterSequence gset refs' rest
      (c' :: rest', refs'')

/-- `has_any_empty_slots`: true iff some slot resolves to zero glyphs. -/
def hasAnyEmptySlots (slots : List GlyphContainer) : Bool :=
  slots.any (fun s => s.glyphSet.isEmpty)

/-! ## The feaLib statement tree -/

/-- The feaLib statements handled by `filter_layout` /
`perform_layout_closure`.  Context-slot sequences are lists of
containers (see `filterSequence`).  Rule payload never read by the
merge engine (value records, anchors, mark-attachment anchors, device
tables, locations) is elided.  Statements the pass does not match
(`LookupReferenceStatement`, `ScriptStatement`, `LanguageStatement`,
comments) fall through unchanged and are modelled by their own
constructors.  `prefix` is a Lean keyword, so the source's
`prefix`/`suffix` fields are called `pre`/`suf` here. -/
inductive Statement where
  | languageSystem (script language : String)
  | comment (text : String)
  | scriptStatement (name : String)
  | languageStatement (name : String)
  | lookupReference (name : String)
  | glyphClassDefinition (name : String) (glyphs : List Glyph)
  | markClassDefinition (className : String) (glyphs : GlyphContainer)
  | ligatureCaretByIndex (glyphs : GlyphContainer)
  | ligatureCaretByPos (glyphs : GlyphContainer)
  | alternateSubst (pre : List GlyphContainer) (glyph : GlyphContainer)
      (suf : List GlyphContainer) (replacement : GlyphContainer)
  | chainContextSubst (pre glyphs suf : List GlyphContainer)
  | chainContextPos (pre glyphs suf : List GlyphContainer)
  | cursivePos (glyphclass : GlyphContainer)
  | ignoreSubst
      (chainContexts : List (List GlyphContainer × List GlyphContainer × List GlyphContainer))
  | ignorePos
      (chainContexts : List (List GlyphContainer × List GlyphContainer × List GlyphContainer))
  | ligatureSubst (pre : List GlyphContainer) (glyphs : List GlyphContainer)
      (suf : List GlyphContainer) (replacement : GlyphContainer)
  | lookupFlag (markAttachment : Option GlyphContainer) (markFilteringSet : Option GlyphContainer)
  | markBasePos (base : GlyphContainer)
  | markLigPos (ligatures : GlyphContainer)
  | markMarkPos (baseMarks : GlyphContainer)
  | multipleSubst (pre : List GlyphContainer) (glyph : GlyphContainer)
      (suf : List GlyphContainer) (replacement : List GlyphContainer)
  | pairPos (glyphs1 glyphs2 : GlyphContainer)
  | reverseChainSingleSubst (oldPre oldSuf : List GlyphContainer)
      (glyphs : List GlyphContainer) (replacements : List GlyphContainer)
  | singleSubst (pre suf : List GlyphContainer) (glyphs0 replacements0 : GlyphContainer)
  | singlePos (pre suf : List GlyphContainer) (pos0 : GlyphContainer)
  | featureBlock (name : String) (statements : List Statement)
  | lookupBlock (name : String) (statements : List Statement)

/-- `isinstance(x, ast.Comment)`. -/
def Statement.isComment : Statement → Bool
  | .comment _ => true
  | _ => false

/-- `isinstance(x, ast.LookupFlagStatement)`. -/
def Statement.isLookupFlag : Statement → Bool
  | .lookupFlag _ _ => true
  | _ => false

/-! ## The layout subsetter (`filter_layout`) -/

/-- The `OrderedDict` insert used to build a single-substitution
mapping: an existing key is overwritten in place, a new key appended. -/
def dictInsert (d : List (Glyph × Glyph)) (k v : Glyph) : List (Glyph × Glyph) :=
  if d.any (fun p => p.1 = k) then d.map (fun p => if p.1 = k then (k, v) else p)
  else d ++ [(k, v)]

/-- `if len(replaces) == 1: replaces = replaces * len(originals)` — the
broadcast of a single replacement glyph across all input glyphs. -/
def broadcastReplacements (originals replaces : List Glyph) : List Glyph :=
  if replaces.length = 1 then (List.replicate originals.length replaces).flatten else replaces

/-- The filtered positional mapping a single-substitution rule is
re-encoded with: keep the pairs whose input *and* output glyph are in
the final glyph set. -/
def singleSubstMapping (gset : GlyphSet) (originals replaces : List Glyph) :
    List (Glyph × Glyph) :=
  (originals.zip (broadcastReplacements originals replaces)).foldl
    (fun d p => if p.1 ∈ gset ∧ p.2 ∈ gset then dictInsert d p.1 p.2 else d) []

/-- Filtering of the `chainContexts` triples of an
ignore-substitution/position statement: each `(prefix, glyphs, suffix)`
triple is filtered (in that order), and a triple any of whose parts has
an empty slot is dropped. -/
def filterChainContexts (gset : GlyphSet) :
    Refs → List (List GlyphContainer × List GlyphContainer × List GlyphContainer) →
      List (List GlyphContainer × List GlyphContainer × List GlyphContainer) × Refs
  | refs, [] => ([], refs)
  | refs, ctx :: rest =>
      let (p', r1) := filterSequence gset refs ctx.1
      let (g', r2) := filterSequence gset r1 ctx.2.1
      let (s', r3) := filterSequence gset r2 ctx.2.2
      let (rest', r4) := filterChainContexts gset r3 rest
      (if hasAnyEmptySlots p' || hasAnyEmptySlots s' || hasAnyEmptySlots g' then rest'
       else (p', g', s') :: rest', r4)

mutual

/-- One step of `LayoutSubsetter.filter_layout` (`layout.py`; the
`UFOMerger.filter_layout` in `__init__.py` is identical except that it
records the dropped `languagesystem` pairs for the later
language-system merge, which does not affect the emitted statements):
returns the rewritten statement, or `none` when the rule is dropped,
together with the updated class-reference table.  Containers and
sequences are filtered in the source's order (the order determines the
contents of the reference table). -/
def filterStatement (gset : GlyphSet) : Statement → Refs → Option Statement × Refs
  | .languageSystem _ _, refs => (none, refs)
  | .featureBlock name sts, refs =>
      let (sts', refs') := filterStatements gset sts refs
      let substantive := sts'.filter (fun x => !x.isComment)
      let substantive :=
        match substantive with
        | [x] => if x.isLookupFlag then [] else substantive
        | _ => substantive
      if substantive.isEmpty then (none, refs')
      else (some (.featureBlock name sts'), refs')
  | .lookupBlock name sts, refs =>
      let (sts', refs') := filterStatements gset sts refs
      let substantive := sts'.filter (fun x => !x.isComment)
      let substantive :=
        match substantive with
        | [x] => if x.isLookupFlag then [] else substantive
        | _ => substantive
      if substantive.isEmpty then
        (some (.lookupBlock name [.comment "lookupflag 0;"]), refs')
      else (some (.lookupBlock name sts'), refs')
  | .glyphClassDefinition _ _, refs =>
      -- dropped up front; regenerated by `_deduplicate_class_defs`
      (none, refs)
  | .markClassDefinition cn glyphs, refs =>
      let (g', refs') := filterGlyphContainer gset refs glyphs
      if g'.glyphSet.isEmpty then (none, refs')
      else (some (.markClassDefinition cn g'), refs')
  | .ligatureCaretByIndex glyphs, refs =>
      let (g', refs') := filterGlyphContainer gset refs glyphs
      if g'.glyphSet.isEmpty then (none, refs')
      else (some (.ligatureCaretByIndex g'), refs')
  | .ligatureCaretByPos glyphs, refs =>
      let (g', refs') := filterGlyphContainer gset refs glyphs
      if g'.glyphSet.isEmpty then (none, refs')
      else (some (.ligatureCaretByPos g'), refs')
  | .alternateSubst pre glyph suf replacement, refs =>
      let (glyph', r1) := filterGlyphContainer gset refs glyph
      let (replacement', r2) := filterGlyphContainer gset r1 replacement
      let (pre', r3) := filterSequence gset r2 pre
      let (suf', r4) := filterSequence gset r3 suf
      if hasAnyEmptySlots pre' || hasAnyEmptySlots suf' ||
          replacement'.glyphSet.isEmpty || glyph'.glyphSet.isEmpty then (none, r4)
      else (some (.alternateSubst pre' glyph' suf' replacement'), r4)
  | .chainContextSubst pre glyphs suf, refs =>
      let (pre', r1) := filterSequence gset refs pre
      let (suf', r2) := filterSequence gset r1 suf
      let (glyphs', r3) := filterSequence gset r2 glyphs
      if hasAnyEmptySlots pre' || hasAnyEmptySlots suf' || hasAnyEmptySlots glyphs' then
        (none, r3)
      else (some (.chainContextSubst pre' glyphs' suf'), r3)
  | .chainContextPos pre glyphs suf, refs =>
      let (pre', r1) := filterSequence gset refs pre
      let (suf', r2) := filterSequence gset r1 suf
      let (glyphs', r3) := filterSequence gset r2 glyphs
      if hasAnyEmptySlots pre' || hasAnyEmptySlots suf' || hasAnyEmptySlots glyphs' then
        (none, r3)
      else (some (.chainContextPos pre' glyphs' suf'), r3)
  | .cursivePos glyphclass, refs =>
      let (g', refs') := filterGlyphContainer gset refs glyphclass
      if g'.glyphSet.isEmpty then (none, refs')
      else (some (.cursivePos g'), refs')
  | .ignoreSubst chainContexts, refs =>
      let (newContexts, refs') := filterChainContexts gset refs chainContexts
      if newContexts.isEmpty then (none, refs')
      else (some (.ignoreSubst newContexts), refs')
  | .ignorePos chainContexts, refs =>
      let (newContexts, refs') := filterChainContexts gset refs chainContexts
      if newContexts.isEmpty then (none, refs')
      else (some (.ignorePos newContexts), refs')
  | .ligatureSubst pre glyphs suf replacement, refs =>
      let (glyphs', r1) := filterSequence gset refs glyphs
      let (replacement', r2) := filterGlyphContainer gset r1 replacement
      let (pre', r3) := filterSequence gset r2 pre
      let (suf', r4) := filterSequence gset r3 suf
      if hasAnyEmptySlots pre' || hasAnyEmptySlots glyphs' || hasAnyEmptySlots suf' ||
          replacement'.glyphSet.isEmpty then (none, r4)
      else (some (.ligatureSubst pre' glyphs' suf' replacement'), r4)
  | .lookupFlag markAttachment markFilteringSet, refs =>
      match markAttachment with
      | some a =>
          let (a', r1) := filterGlyphContainer gset refs a
          if a'.glyphSet.isEmpty then (none, r1)
          else
            match markFilteringSet with
            | some f =>
                let (f', r2) := filterGlyphContainer gset r1 f
                if f'.glyphSet.isEmpty then (none, r2)
                else (some (.lookupFlag (some a') (some f')), r2)
            | none => (some (.lookupFlag (some a') none), r1)
      | none =>
          match markFilteringSet with
          | some f =>
              let (f', r1) := filterGlyphContainer gset refs f
              if f'.glyphSet.isEmpty then (none, r1)
              else (some (.lookupFlag none (some f')), r1)
          | none => (some (.lookupFlag none none), refs)
  | .markBasePos base, refs =>
      let (b', refs') := filterGlyphContainer gset refs base
      if b'.glyphSet.isEmpty then (none, refs')
      else (some (.markBasePos b'), refs')
  | .markLigPos ligatures, refs =>
      let (l', refs') := filterGlyphContainer gset refs ligatures
      if l'.glyphSet.isEmpty then (none, refs')
      else (some (.markLigPos l'), refs')
  | .markMarkPos baseMarks, refs =>
      let (b', refs') := filterGlyphContainer gset refs baseMarks
      if b'.glyphSet.isEmpty then (none, refs')
      else (some (.markMarkPos b'), refs')
  | .multipleSubst pre glyph suf replacement, refs =>
      let (glyph', r1) := filterGlyphContainer gset refs glyph
      let (replacement', r2) := filterSequence gset r1 replacement
      let (pre', r3) := filterSequence gset r2 pre
      let (suf', r4) := filterSequence gset r3 suf
      if hasAnyEmptySlots pre' || hasAnyEmptySlots replacement' || hasAnyEmptySlots suf' ||
          glyph'.glyphSet.isEmpty then (none, r4)
      else (some (.multipleSubst pre' glyph' suf' replacement'), r4)
  | .pairPos glyphs1 glyphs2, refs =>
      let (g1', r1) := filterGlyphContainer gset refs glyphs1
      let (g2', r2) := filterGlyphContainer gset r1 glyphs2
      if g1'.glyphSet.isEmpty || g2'.glyphSet.isEmpty then (none, r2)
      else (some (.pairPos g1' g2'), r2)
  | .reverseChainSingleSubst oldPre oldSuf glyphs replacements, refs =>
      let (oldPre', r1) := filterSequence gset refs oldPre
      let (oldSuf', r2) := filterSequence gset r1 oldSuf
      let (glyphs', r3) := filterSequence gset r2 glyphs
      let (replacements', r4) := filterSequence gset r3 replacements
      if hasAnyEmptySlots oldPre' || hasAnyEmptySlots replacements' ||
          hasAnyEmptySlots oldSuf' || hasAnyEmptySlots glyphs' then (none, r4)
      else (some (.reverseChainSingleSubst oldPre' oldSuf' glyphs' replacements'), r4)
  | .singleSubst pre suf glyphs0 replacements0, refs =>
      let (pre', r1) := filterSequence gset refs pre
      let (suf', r2) := filterSequence gset r1 suf
      if hasAnyEmptySlots pre' || hasAnyEmptySlots suf' then (none, r2)
      else
        let newmapping := singleSubstMapping gset glyphs0.glyphSet replacements0.glyphSet
        if newmapping.isEmpty then (none, r2)
        else if newmapping.length = 1 then
          (some (.singleSubst pre' suf'
            (.glyphName ((newmapping.map (fun p => p.1)).headD ""))
            (.glyphName ((newmapping.map (fun p => p.2)).headD ""))), r2)
        else
          (some (.singleSubst pre' suf'
            (.glyphClass (newmapping.map (fun p => p.1)))
            (.glyphClass (newmapping.map (fun p => p.2)))), r2)
  | .singlePos pre suf pos0, refs =>
      let (pre', r1) := filterSequence gset refs pre
      let (suf', r2) := filterSequence gset r1 suf
      let (pos0', r3) := filterGlyphContainer gset r2 pos0
      if pre'.any (fun c => c.glyphSet.isEmpty) || suf'.any (fun c => c.glyphSet.isEmpty) ||
          pos0'.glyphSet.isEmpty then (none, r3)
      else (some (.singlePos pre' suf' pos0'), r3)
  | .comment text, refs => (some (.comment text), refs)
  | .scriptStatement name, refs => (some (.scriptStatement name), refs)
  | .languageStatement name, refs => (some (.languageStatement name), refs)
  | .lookupReference name, refs => (some (.lookupReference name), refs)

/-- `LayoutSubsetter.filter_layout` over a statement list. -/
def filterStatements (gset : GlyphSet) : List Statement → Refs → List Statement × Refs
  | [], refs => ([], refs)
  | st :: rest, refs =>
      let (st', refs') := filterStatement gset st refs
      let (rest', refs'') := filterStatements gset rest refs'
      (match st' with
       | some s => s :: rest'
       | none => rest', refs'')

end

/-! ## Liveness: every context slot resolves to a non-empty glyph set -/

/-- A context slot is *live* under a glyph set when it resolves to at
least one glyph of that set. -/
def slotLive (gset : GlyphSet) (c : GlyphContainer) : Bool :=
  !(filterGlyphs gset c.glyphSet).isEmpty

/-- All slots of a context sequence are live. -/
def slotsLive (gset : GlyphSet) (slots : List GlyphContainer) : Bool :=
  slots.all (slotLive gset)

mutual

/-- Dead-rule-elimination invariant: every context slot (prefix, input,
suffix) of a rule resolves to a non-empty glyph set under `gset`;
statements without context slots hold vacuously, blocks recurse. -/
def statementContextLive (gset : GlyphSet) : Statement → Bool
  | .markClassDefinition _ g => slotLive gset g
  | .ligatureCaretByIndex g => slotLive gset g
  | .ligatureCaretByPos g => slotLive gset g
  | .alternateSubst pre glyph suf _ =>
      slotsLive gset pre && slotsLive gset suf && slotLive gset glyph
  | .chainContextSubst pre glyphs suf =>
      slotsLive gset pre && slotsLive gset glyphs && slotsLive gset suf
  | .chainContextPos pre glyphs suf =>
      slotsLive gset pre && slotsLive gset glyphs && slotsLive gset suf
  | .cursivePos g => slotLive gset g
  | .ignoreSubst ctxs =>
      ctxs.all (fun c => slotsLive gset c.1 && slotsLive gset c.2.1 && slotsLive gset c.2.2)
  | .ignorePos ctxs =>
      ctxs.all (fun c => slotsLive gset c.1 && slotsLive gset c.2.1 && slotsLive gset c.2.2)
  | .ligatureSubst pre glyphs suf _ =>
      slotsLive gset pre && slotsLive gset glyphs && slotsLive gset suf
  | .markBasePos b => slotLive gset b
  | .markLigPos l => slotLive gset l
  | .markMarkPos b => slotLive gset b
  | .multipleSubst pre glyph suf _ =>
      slotsLive gset pre && slotLive gset glyph && slotsLive gset suf
  | .pairPos g1 g2 => slotLive gset g1 && slotLive gset g2
  | .reverseChainSingleSubst oldPre oldSuf glyphs _ =>
      slotsLive gset oldPre && slotsLive gset oldSuf && slotsLive gset glyphs
  | .singleSubst pre suf glyphs0 _ =>
      slotsLive gset pre && slotsLive gset suf && slotLive gset glyphs0
  | .singlePos pre suf pos0 =>
      slotsLive gset pre && slotsLive gset suf && slotLive gset pos0
  | .featureBlock _ sts => statementsContextLive gset sts
  | .lookupBlock _ sts => statementsContextLive gset sts
  | _ => true

/-- `statementContextLive` over a statement list. -/
def statementsContextLive (gset : GlyphSet) : List Statement → Bool
  | [] => true
  | st :: rest => statementContextLive gset st && statementsContextLive gset rest

end

/-! ## Layout closure (`perform_layout_closure`) -/

/-- The mutable state the closure walks with: the insertion-ordered
`incoming_glyphset` (its values are always `True`, so only the ordered
key list is modelled), the growing `final_glyphset`, and the
class-reference table touched through `filter_sequence`. -/
structure CloState where
  incoming : List Glyph
  glyphset : GlyphSet
  refs : Refs

/-- `self.incoming_glyphset[glyph] = True`: dict insertion keeps an
existing key's position and appends a new key. -/
def addIncoming (inc : List Glyph) (g : Glyph) : List Glyph :=
  if g ∈ inc then inc else inc ++ [g]

/-- Add one produced output glyph to the incoming selection and to the
glyph set. -/
def addOutputGlyph (s : CloState) (g : Glyph) : CloState :=
  { s with incoming := addIncoming s.incoming g, glyphset := insert g s.glyphset }

def addOutputGlyphs (s : CloState) (gs : List Glyph) : CloState :=
  gs.foldl addOutputGlyph s

/-- The body of `perform_layout_closure` for one (non-block) statement:
the five substitution kinds are gated on their filtered prefix/suffix
(short-circuit, as in the source, so a dead prefix skips the suffix
filter), then add their outputs per rule kind; any other statement is
untouched. -/
def closeSubstStatement (st : Statement) (s : CloState) : CloState :=
  match st with
  | .alternateSubst pre glyph suf replacement =>
      let p1 := filterSequence s.glyphset s.refs pre
      if hasAnyEmptySlots p1.1 then { s with refs := p1.2 }
      else
        let p2 := filterSequence s.glyphset p1.2 suf
        if hasAnyEmptySlots p2.1 then { s with refs := p2.2 }
        else
          let s2 := { s with refs := p2.2 }
          if (filterGlyphs s.glyphset glyph.glyphSet).isEmpty then s2
          else addOutputGlyphs s2 replacement.glyphSet
  | .multipleSubst pre glyph suf replacement =>
      let p1 := filterSequence s.glyphset s.refs pre
      if hasAnyEmptySlots p1.1 then { s with refs := p1.2 }
      else
        let p2 := filterSequence s.glyphset p1.2 suf
        if hasAnyEmptySlots p2.1 then { s with refs := p2.2 }
        else
          let s2 := { s with refs := p2.2 }
          if (filterGlyphs s.glyphset glyph.glyphSet).isEmpty then s2
          else replacement.foldl (fun s slot => addOutputGlyphs s slot.glyphSet) s2
  | .ligatureSubst pre glyphs suf replacement =>
      let p1 := filterSequence s.glyphset s.refs pre
      if hasAnyEmptySlots p1.1 then { s with refs := p1.2 }
      else
        let p2 := filterSequence s.glyphset p1.2 suf
        if hasAnyEmptySlots p2.1 then { s with refs := p2.2 }
        else
          let p3 := filterSequence s.glyphset p2.2 glyphs
          if hasAnyEmptySlots p3.1 then { s with refs := p3.2 }
          else addOutputGlyphs { s with refs := p3.2 } replacement.glyphSet
  | .chainContextSubst pre _ suf =>
      -- gated like the others, but the rule itself produces nothing
      -- (its outputs live in the lookups it references)
      let p1 := filterSequence s.glyphset s.refs pre
      if hasAnyEmptySlots p1.1 then { s with refs := p1.2 }
      else
        let p2 := filterSequence s.glyphset p1.2 suf
        { s with refs := p2.2 }
  | .singleSubst pre suf glyphs0 replacements0 =>
      let p1 := filterSequence s.glyphset s.refs pre
      if hasAnyEmptySlots p1.1 then { s with refs := p1.2 }
      else
        let p2 := filterSequence s.glyphset p1.2 suf
        if hasAnyEmptySlots p2.1 then { s with refs := p2.2 }
        else
          let s2 := { s with refs := p2.2 }
          let originals := glyphs0.glyphSet
          let replaces := broadcastReplacements originals replacements0.glyphSet
          (originals.zip replaces).foldl
            (fun s p => if p.1 ∈ s.glyphset then addOutputGlyph s p.2 else s) s2
  | _ => s

mutual

/-- The per-statement part of `perform_layout_closure`: a nested block
is recursed into first; then the statement itself is processed (for a
block `closeSubstStatement` is the identity, mirroring the source where
blocks fall through the `isinstance` check). -/
def closeStatementRec (st : Statement) (s : CloState) : CloState :=
  match st with
  | .featureBlock _ sts => closeSubstStatement st (performLayoutClosure sts s)
  | .lookupBlock _ sts => closeSubstStatement st (performLayoutClosure sts s)
  | _ => closeSubstStatement st s

/-- `UFOMerger.perform_layout_closure`: walk the statement list, recurse
into nested blocks first, then process each substitution rule. -/
def performLayoutClosure : List Statement → CloState → CloState
  | [], s => s
  | st :: rest, s => performLayoutClosure rest (closeStatementRec st s)

end

/-! ## The closure fixpoint loop of `UFOMerger.merge` -/

/-- The `while True` loop body: run one closure pass, stop when the
glyph-set size did not change, fail once more than 10 rounds have run
while the set is still growing.  The loop runs at most 11 rounds (the
round-counter check raises on round 11), so it is written with a
structural fuel argument; from the entry point (`closureLoop`, fuel 12)
the fuel-exhausted branch is unreachable and carries the same error. -/
def closureLoopGo (sts : List Statement) : Nat → Nat → Nat → CloState → Except String CloState
  | 0, _, _, _ => .error "Layout closure failure; glyphset grew unreasonably"
  | fuel + 1, count, rounds, s =>
      let s' := performLayoutClosure sts s
      let rounds' := rounds + 1
      if s'.glyphset.card = count then .ok s'
      else if rounds' > 10 then
        .error "Layout closure failure; glyphset grew unreasonably"
      else closureLoopGo sts fuel s'.glyphset.card rounds' s'

/-- The fixpoint loop as entered by `merge` (initial count is the
current glyph-set size, round counter starts at zero). -/
def closureLoop (sts : List Statement) (s : CloState) : Except String CloState :=
  closureLoopGo sts 12 s.glyphset.card 0 s

/-- A twelve-glyph single-substitution chain, listed in reverse order
so that each closure pass only fires the one rule whose input glyph was
added by the previous pass: the glyph set grows by exactly one glyph
per round for eleven rounds. -/
def closureChainStatements : List Statement :=
  [.singleSubst [] [] (.glyphName "k10") (.glyphName "k11"),
   .singleSubst [] [] (.glyphName "k9") (.glyphName "k10"),
   .singleSubst [] [] (.glyphName "k8") (.glyphName "k9"),
   .singleSubst [] [] (.glyphName "k7") (.glyphName "k8"),
   .singleSubst [] [] (.glyphName "k6") (.glyphName "k7"),
   .singleSubst [] [] (.glyphName "k5") (.glyphName "k6"),
   .singleSubst [] [] (.glyphName "k4") (.glyphName "k5"),
   .singleSubst [] [] (.glyphName "k3") (.glyphName "k4"),
   .singleSubst [] [] (.glyphName "k2") (.glyphName "k3"),
   .singleSubst [] [] (.glyphName "k1") (.glyphName "k2"),
   .singleSubst [] [] (.glyphName "k0") (.glyphName "k1")]

/-- The closure state seeding that chain with its first glyph. -/
def closureChainStart : CloState := ⟨["k0"], {"k0"}, []⟩

/-! ## Named-class deduplication (`_deduplicate_class_defs`) -/

/-- `tuple(sorted(...))` over a glyph list. -/
def sortGlyphs (l : List Glyph) : List Glyph :=
  l.mergeSort (fun a b => a ≤ b)

/-- The keys of `by_glyph_set` in insertion order: the distinct sorted
glyph contents of the reference sites, first occurrence first. -/
def groupKeys (sites : List (List Glyph)) : List (List Glyph) :=
  sites.foldl (fun acc c => if sortGlyphs c ∈ acc then acc else acc ++ [sortGlyphs c]) []

/-- The name minted for content group number `idx` (0-based) of an
original class: the original name when there is a single group,
otherwise `f"{class_name}_{index}"` with `enumerate(..., start=1)`. -/
def mintedClassName (className : String) (ngroups : Nat) (idx : Nat) : String :=
  if ngroups = 1 then className else className ++ "_" ++ Nat.repr (idx + 1)

/-- The insertion-order index of a content key among the distinct keys
(`list(by_glyph_set).index`-style lookup, written structurally). -/
def keyIndex : List (List Glyph) → List Glyph → Nat
  | [], _ => 0
  | a :: rest, k => if a = k then 0 else keyIndex rest k + 1

/-- `_deduplicate_class_defs` restricted to the sites of one original
class name: the fresh definitions (one per distinct content group, in
first-occurrence order; the definition's glyph list is the sorted
content), and, site by site, the new name stored into the site's
`GlyphClassName` copy (in the source this is done by mutating the
grouped member objects; every site belongs to exactly one group). -/
def dedupClassDefsFor (className : String) (sites : List (List Glyph)) :
    List (String × List Glyph) × List String :=
  let keys := groupKeys sites
  (keys.enum.map (fun p => (mintedClassName className keys.length p.1, p.2)),
   sites.map (fun c => mintedClassName className keys.length (keyIndex keys (sortGlyphs c))))

/-- `_deduplicate_class_defs` over the whole `class_name_references`
table: the fresh definition list (concatenated per original name, in
table order) and the repointed name of every reference site. -/
def _deduplicate_class_defs (refs : Refs) :
    List (String × List Glyph) × List (String × List String) :=
  ((refs.map (fun p => (dedupClassDefsFor p.1 p.2).1)).flatten,
   refs.map (fun p => (p.1, (dedupClassDefsFor p.1 p.2).2)))

/-! ## Kerning merge (`merge_kerning`) -/

/-- `groups2[g] = self.filter_glyphs(groups2[g])` for every donor
kerning group: the donor's groups are slimmed *in place* to the final
glyph set. -/
def slimDonorGroups (gset : GlyphSet) (groups : List (String × List Glyph)) :
    List (String × List Glyph) :=
  groups.map (fun p => (p.1, filterGlyphs gset p.2))

/-- The destination-group cleaning loop: members that are part of the
incoming selection are removed from each group; a group emptied by this
is deleted and its name recorded in `kerning_groups_to_be_cleaned`. -/
def cleanDestGroups (incoming : List Glyph) :
    List (String × List Glyph) → List (String × List Glyph) × List String
  | [] => ([], [])
  | (name, members) :: rest =>
      let newMembers := members.filter (fun m => m ∉ incoming)
      let r := cleanDestGroups incoming rest
      if newMembers.isEmpty then (r.1, name :: r.2)
      else ((name, newMembers) :: r.1, r.2)

/-- Destination kerning pairs either of whose sides names a deleted
group are dropped. -/
def cleanDestKerning (cleaned : List String) (kerning : List ((String × String) × Int)) :
    List ((String × String) × Int) :=
  kerning.filter (fun p => p.1.1 ∉ cleaned ∧ p.1.2 ∉ cleaned)

/-- `self.ufo1.kerning[key] = value` with dict semantics. -/
def kerningInsert (k : List ((String × String) × Int)) (key : String × String) (v : Int) :
    List ((String × String) × Int) :=
  if k.any (fun p => p.1 = key) then k.map (fun p => if p.1 = key then (key, v) else p)
  else k ++ [(key, v)]

/-- `groups1[key] = value` with dict semantics. -/
def groupsInsert (gs : List (String × List Glyph)) (key : String) (v : List Glyph) :
    List (String × List Glyph) :=
  if gs.any (fun p => p.1 = key) then gs.map (fun p => if p.1 = key then (key, v) else p)
  else gs ++ [(key, v)]

/-- Python `set(...)` of a concatenation, as a deterministic
deduplication (the source then only filters it, so only membership
matters, not the set's iteration order). -/
def dedupList (l : List Glyph) : List Glyph :=
  l.foldl (fun acc g => if g ∈ acc then acc else acc ++ [g]) []

/-- `groups.get(side, [side])` resolved through the (already slimmed)
donor groups and filtered to the final glyph set. -/
def resolveSide (gset : GlyphSet) (groups2 : List (String × List Glyph)) (side : String) :
    List Glyph :=
  filterGlyphs gset (((groups2.find? (fun p => p.1 = side)).map (fun p => p.2)).getD [side])

/-- `str.startswith` over the character lists, so that the kernel can
evaluate it on concrete names. -/
def strStartsWith (s p : String) : Bool :=
  p.data.isPrefixOf s.data

/-- For a copied pair side with the reserved `public.kern` prefix, the
donor group's membership is merged into the destination group (`groups2
[side]` raises `KeyError` when the side is not a donor group). -/
def updateKernGroup (gset : GlyphSet) (groups2 groups1 : List (String × List Glyph))
    (side : String) : Except String (List (String × List Glyph)) :=
  if strStartsWith side "public.kern" then
    match groups2.find? (fun p => p.1 = side) with
    | none => .error ("KeyError: " ++ side)
    | some p2 =>
        match groups1.find? (fun p => p.1 = side) with
        | none => .ok (groupsInsert groups1 side p2.2)
        | some p1 => .ok (groupsInsert groups1 side (filterGlyphs gset (dedupList (p1.2 ++ p2.2))))
  else .ok groups1

/-- One iteration of the donor-pair copy loop, over the accumulated
destination groups and kerning: the donor pair `q = ((first, second),
value)` is copied when both sides, resolved through the donor groups
(defaulting to the literal name), still contain at least one retained
glyph; copying also merges `public.kern`-prefixed group membership
(`updateKernGroup`). -/
def copyDonorKerningStep (gset : GlyphSet) (groups2 : List (String × List Glyph))
    (acc : List (String × List Glyph) × List ((String × String) × Int))
    (q : (String × String) × Int) :
    Except String (List (String × List Glyph) × List ((String × String) × Int)) :=
  if (resolveSide gset groups2 q.1.1).isEmpty ||
      (resolveSide gset groups2 q.1.2).isEmpty then .ok acc
  else
    let kerning1 := kerningInsert acc.2 q.1 q.2
    match updateKernGroup gset groups2 acc.1 q.1.1 with
    | .error e => .error e
    | .ok groups1 =>
        match updateKernGroup gset groups2 groups1 q.1.2 with
        | .error e => .error e
        | .ok groups1 => .ok (groups1, kerning1)

/-- The donor-pair copy loop of `merge_kerning`: fold
`copyDonorKerningStep` over the donor kerning table. -/
def copyDonorKerning (gset : GlyphSet) (groups2 : List (String × List Glyph))
    (k2 : List ((String × String) × Int)) (groups1 : List (String × List Glyph))
    (kerning1 : List ((String × String) × Int)) :
    Except String (List (String × List Glyph) × List ((String × String) × Int)) :=
  k2.foldlM (copyDonorKerningStep gset groups2) (groups1, kerning1)

/-- The result of `merge_kerning`: the destination's groups and kerning
and the (slimmed in place) donor groups. -/
structure KerningMergeResult where
  groups1 : List (String × List Glyph)
  kerning1 : List ((String × String) × Int)
  groups2 : List (String × List Glyph)

/-- `UFOMerger.merge_kerning`. -/
def mergeKerning (gset : GlyphSet) (incoming : List Glyph)
    (groups1 : List (String × List Glyph)) (kerning1 : List ((String × String) × Int))
    (groups2 : List (String × List Glyph)) (kerning2 : List ((String × String) × Int)) :
    Except String KerningMergeResult :=
  let groups2s := slimDonorGroups gset groups2
  let cg := cleanDestGroups incoming groups1
  let kerning1c := cleanDestKerning cg.2 kerning1
  match copyDonorKerning gset groups2s kerning2 cg.1 kerning1c with
  | .error e => .error e
  | .ok r => .ok ⟨r.1, r.2, groups2s⟩

/-! ## The merge driver (`UFOMerger.__post_init__`, `merge`, `merge_ufos`)

The driver is modelled over the parts of the UFO object the claims
observe: named glyphs with their Unicode codepoints and component base
names, kerning groups, kerning pairs, and the parsed feature statements
(the feaLib text parser/serializer is an external boundary, so a font
carries its features already parsed).  Steps of `merge` that only touch
state outside this model are omitted: the lib-key merges
(`public.glyphOrder` and friends), the feature-text concatenation with
`clean_layout`/`add_language_systems`, and the copying of non-default
layers. -/

structure GlyphRecord where
  name : Glyph
  unicodes : List Nat
  components : List Glyph
deriving DecidableEq

structure Font' where
  glyphs : List GlyphRecord
  groups : List (String × List Glyph)
  kerning : List ((String × String) × Int)
  featureStatements : List Statement

/-- `ufo.keys()` in glyph order. -/
def fontGlyphNames (f : Font') : List Glyph := f.glyphs.map (fun g => g.name)

/-- `ufo[name]`, as an option. -/
def fontGlyph? (f : Font') (name : Glyph) : Option GlyphRecord :=
  f.glyphs.find? (fun g => g.name = name)

structure MergeConfig where
  glyphs : List Glyph := []
  exclude_glyphs : List Glyph := []
  codepoints : List Nat := []
  layout_handling : String := "subset"
  existing_handling : String := "replace"

/-- `dict.fromkeys(keys, True)`: ordered key set, first occurrence
kept. -/
def dictFromKeys (keys : List Glyph) : List Glyph :=
  keys.foldl addIncoming []

/-- `existing_map[cp] = glyph.name` over all destination glyphs. -/
def natDictInsert (m : List (Nat × Glyph)) (k : Nat) (v : Glyph) : List (Nat × Glyph) :=
  if m.any (fun p => p.1 = k) then m.map (fun p => if p.1 = k then (k, v) else p)
  else m ++ [(k, v)]

def buildExistingMap (ufo1 : Font') : List (Nat × Glyph) :=
  ufo1.glyphs.foldl (fun m g => g.unicodes.foldl (fun m cp => natDictInsert m cp g.name) m) []

/-- `to_delete` is a `defaultdict(list)` keyed by destination glyph. -/
def toDeleteAdd (td : List (Glyph × List Nat)) (k : Glyph) (cp : Nat) : List (Glyph × List Nat) :=
  if td.any (fun p => p.1 = k) then
    td.map (fun p => if p.1 = k then (p.1, p.2 ++ [cp]) else p)
  else td ++ [(k, [cp])]

/-- Python `set.add`. -/
def setAdd (s : List Glyph) (g : Glyph) : List Glyph := if g ∈ s then s else s ++ [g]

structure Selection where
  incoming : List Glyph
  blacklisted : List Glyph
  toDelete : List (Glyph × List Nat)

/-- The codepoint-selection loop of `__post_init__`: for every donor
glyph carrying a requested codepoint, apply the existing-handling
policy against the destination's codepoint map, and select the glyph. -/
def codepointPass (cfg : MergeConfig) (existingMap : List (Nat × Glyph)) (ufo2 : Font')
    (init : List Glyph) : Selection :=
  ufo2.glyphs.foldl
    (fun sel g =>
      g.unicodes.foldl
        (fun sel cp =>
          if cp ∈ cfg.codepoints then
            let sel :=
              match existingMap.find? (fun p => p.1 = cp) with
              | some p =>
                  if cfg.existing_handling = "skip" then
                    { sel with blacklisted := setAdd sel.blacklisted g.name }
                  else if cfg.existing_handling = "replace" then
                    { sel with toDelete := toDeleteAdd sel.toDelete p.2 cp }
                  else sel
              | none => sel
            { sel with incoming := addIncoming sel.incoming g.name }
          else sel)
        sel)
    { incoming := init, blacklisted := [], toDelete := [] }

/-- Remove the conflicting codepoint mappings from the destination
(`list(set(unicodes) - set(codepoints))`; the Python set difference has
arbitrary order, the codepoint list is only ever used for membership,
so order-preserving filtering is used here). -/
def applyToDelete (ufo1 : Font') (td : List (Glyph × List Nat)) : Font' :=
  { ufo1 with
    glyphs := ufo1.glyphs.map (fun g =>
      match td.find? (fun p => p.1 = g.name) with
      | some p => { g with unicodes := g.unicodes.filter (fun cp => cp ∉ p.2) }
      | none => g) }

/-- `for glyph in self.exclude_glyphs: del self.incoming_glyphset[glyph]`:
deleting a key that is not in the selection raises `KeyError`. -/
def applyExcludes : List Glyph → List Glyph → Except String (List Glyph)
  | [], incoming => .ok incoming
  | g :: rest, incoming =>
      if g ∈ incoming then applyExcludes rest (incoming.filter (fun x => x ≠ g))
      else .error ("KeyError: " ++ g)

/-- The state `__post_init__` leaves the merger in. -/
structure MergerState where
  ufo1 : Font'
  ufo2 : Font'
  incoming : List Glyph
  blacklisted : List Glyph
  final_glyphset : GlyphSet
  ufo2_features : List Statement
  class_name_references : Refs

/-- `UFOMerger.__post_init__`. -/
def postInit (cfg : MergeConfig) (ufo1 ufo2 : Font') : Except String MergerState :=
  let glyphsSel :=
    if cfg.glyphs.isEmpty && cfg.codepoints.isEmpty then fontGlyphNames ufo2 else cfg.glyphs
  let incoming0 := dictFromKeys glyphsSel
  let sel :=
    if cfg.codepoints.isEmpty then
      ({ incoming := incoming0, blacklisted := [], toDelete := [] } : Selection)
    else codepointPass cfg (buildExistingMap ufo1) ufo2 incoming0
  -- blacklisted glyphs are deleted from the selection (every
  -- blacklisted glyph was selected in the same loop iteration, so the
  -- per-element `del` cannot fail here)
  let incoming1 := sel.incoming.filter (fun g => g ∉ sel.blacklisted)
  let ufo1' := applyToDelete ufo1 sel.toDelete
  match applyExcludes cfg.exclude_glyphs incoming1 with
  | .error e => .error e
  | .ok incoming2 =>
      -- names not in the donor are logged and dropped
      let incoming3 := incoming2.filter (fun g => g ∈ fontGlyphNames ufo2)
      let fset := (fontGlyphNames ufo1').toFinset ∪ incoming3.toFinset
      let feats := if cfg.layout_handling ≠ "ignore" then ufo2.featureStatements else []
      .ok { ufo1 := ufo1', ufo2 := ufo2, incoming := incoming3,
            blacklisted := sel.blacklisted, final_glyphset := fset,
            ufo2_features := feats, class_name_references := [] }

/-- `UFOMerger.close_components`: recursively pull in component base
glyphs.  `fuel` bounds the recursion depth (the source recurses on the
Python stack and dies with `RecursionError` on a cyclic component
graph; a depth of one more than the donor's glyph count is enough for
every acyclic graph). -/
def closeComponents (ufo2 : Font') (ufo1names : List Glyph) (existing : String) :
    Nat → Glyph → List Glyph × GlyphSet → Except String (List Glyph × GlyphSet)
  | 0, _, _ => .error "RecursionError"
  | fuel + 1, glyph, st =>
      match fontGlyph? ufo2 glyph with
      | none => .error ("KeyError: " ++ glyph)
      | some g =>
          g.components.foldlM
            (fun st base =>
              if base ∉ st.2 then
                closeComponents ufo2 ufo1names existing fuel base
                  (addIncoming st.1 base, insert base st.2)
              else if existing = "replace" then
                closeComponents ufo2 ufo1names existing fuel base
                  (addIncoming st.1 base, st.2)
              else
                -- existing glyph kept; when it pre-exists only in the
                -- destination a warning is logged
                .ok st)
            st

/-- The final glyph copy into the destination's default layer. -/
def copyGlyphs (existing : String) (incoming : List Glyph) (ufo1 ufo2 : Font') :
    Except String Font' :=
  incoming.foldlM
    (fun f1 glyph =>
      if existing = "skip" && glyph ∈ fontGlyphNames f1 then .ok f1
      else
        match fontGlyph? ufo2 glyph with
        | none => .error ("KeyError: " ++ glyph)
        | some g =>
            if glyph ∈ fontGlyphNames f1 then
              .ok { f1 with glyphs := f1.glyphs.map (fun h => if h.name = glyph then g else h) }
            else .ok { f1 with glyphs := f1.glyphs ++ [g] })
    ufo1

/-- The layout-closure stage of `UFOMerger.merge`. -/
def mergeClosureStep (cfg : MergeConfig) (s : MergerState) : Except String MergerState :=
  if cfg.layout_handling = "closure" then
    match closureLoop s.ufo2_features
        ⟨s.incoming, s.final_glyphset, s.class_name_references⟩ with
    | .error e => .error e
    | .ok c =>
        .ok { s with incoming := c.incoming, final_glyphset := c.glyphset,
                     class_name_references := c.refs }
  else .ok s

/-- The layout-filtering and class-deduplication stage of
`UFOMerger.merge`. -/
def mergeFilterStep (cfg : MergeConfig) (s : MergerState) : MergerState :=
  if cfg.layout_handling ≠ "ignore" then
    let fl := filterStatements s.final_glyphset s.ufo2_features s.class_name_references
    let fresh := (_deduplicate_class_defs fl.2).1
    { s with
      ufo2_features :=
        (fresh.map (fun p => Statement.glyphClassDefinition p.1 p.2)).reverse ++ fl.1,
      class_name_references := fl.2 }
  else s

/-- The component-closure stage of `UFOMerger.merge`. -/
def mergeComponentStep (cfg : MergeConfig) (s : MergerState) : Except String MergerState :=
  match s.incoming.foldlM
      (fun st g =>
        closeComponents s.ufo2 (fontGlyphNames s.ufo1) cfg.existing_handling
          (s.ufo2.glyphs.length + 1) g st)
      (s.incoming, s.final_glyphset) with
  | .error e => .error e
  | .ok r => .ok { s with incoming := r.1, final_glyphset := r.2 }

/-- The blacklist stage of `UFOMerger.merge`: a blacklisted donor glyph
that re-entered the selection has its codepoints cleared on the donor
object. -/
def mergeBlacklistStep (s : MergerState) : MergerState :=
  { s with
    ufo2 := { s.ufo2 with
      glyphs := s.ufo2.glyphs.map (fun (g : GlyphRecord) =>
        if g.name ∈ s.blacklisted ∧ g.name ∈ s.incoming then
          { g with unicodes := [] }
        else g) } }

/-- The kerning stage of `UFOMerger.merge`: `merge_kerning` updates the
destination's groups and kerning and slims the donor's groups in
place. -/
def mergeKerningStep (s : MergerState) : Except String MergerState :=
  match mergeKerning s.final_glyphset s.incoming s.ufo1.groups s.ufo1.kerning
      s.ufo2.groups s.ufo2.kerning with
  | .error e => .error e
  | .ok km =>
      .ok { s with
        ufo1 := { s.ufo1 with groups := km.groups1, kerning := km.kerning1 },
        ufo2 := { s.ufo2 with groups := km.groups2 } }

/-- The glyph-copy stage of `UFOMerger.merge`. -/
def mergeCopyStep (cfg : MergeConfig) (s : MergerState) : Except String MergerState :=
  match copyGlyphs cfg.existing_handling s.incoming s.ufo1 s.ufo2 with
  | .error e => .error e
  | .ok f1 => .ok { s with ufo1 := f1 }

/-- `UFOMerger.merge` (over the modelled state; see the section header
for the omitted feature-text and lib-key steps), as the sequence of its
stages in source order. -/
def mergerMerge (cfg : MergeConfig) (s : MergerState) : Except String MergerState :=
  if s.incoming.isEmpty then .ok s
  else
    match mergeClosureStep cfg s with
    | .error e => .error e
    | .ok s =>
        let s := mergeFilterStep cfg s
        match mergeComponentStep cfg s with
        | .error e => .error e
        | .ok s =>
            let s := mergeBlacklistStep s
            match mergeKerningStep s with
            | .error e => .error e
            | .ok s => mergeCopyStep cfg s

/-- `merge_ufos`: validate the layout-handling mode, then build the
merger and run it.  Returns the two mutated fonts. -/
def merge_ufos (ufo1 ufo2 : Font') (cfg : MergeConfig) : Except String (Font' × Font') :=
  if cfg.layout_handling ∉ (["subset", "closure", "ignore"] : List String) then
    .error ("Unknown layout handling mode '" ++ cfg.layout_handling ++ "'")
  else
    match postInit cfg ufo1 ufo2 with
    | .error e => .error e
    | .ok s =>
        match mergerMerge cfg s with
        | .error e => .error e
        | .ok s' => .ok (s'.ufo1, s'.ufo2)

/-- `Except.isOk`, for stating that a run completed without error. -/
def exceptOk {ε α : Type _} : Except ε α → Bool
  | .ok _ => true
  | .error _ => false

/-! ## Object-level model of the named-class copy (`filter_glyph_container`)

The aliasing hazard of `filter_glyph_container` is about Python object
identity: many `GlyphClassName` reference sites share one
`GlyphClassDefinition` object, and the filter must deep-copy before
editing.  To state this, class-definition objects live in an explicit
store (`ClassHeap`, object identity = index), a reference site points
into the store, and `copy.deepcopy` is an allocation.  Apart from the
store indirection the function is the same `filter_glyph_container` as
above. -/

/-- An `ast.GlyphClassDefinition` object: its class name and glyph
list. -/
structure GlyphClassDefinitionObj where
  name : String
  glyphs : List Glyph
deriving DecidableEq

/-- The object store; an object's identity is its index. -/
abbrev ClassHeap := List GlyphClassDefinitionObj

/-- `class_name_references`, recording the copied objects themselves
(here: their identities). -/
abbrev HeapRefs := List (String × List Nat)

def heapRefsLookup (refs : HeapRefs) (name : String) : List Nat :=
  ((refs.find? (fun p => p.1 = name)).map (fun p => p.2)).getD []

def heapRefsAdd (refs : HeapRefs) (name : String) (objId : Nat) : HeapRefs :=
  if refs.any (fun p => p.1 = name) then
    refs.map (fun p => if p.1 = name then (p.1, p.2 ++ [objId]) else p)
  else refs ++ [(name, [objId])]

/-- A glyph container whose named-class variant is a pointer to a
shared definition object. -/
inductive HeapContainer where
  | glyphName (glyph : Glyph)
  | glyphClass (glyphs : List Glyph)
  | glyphClassName (ref : Nat)
  | markClassName (name : String) (classGlyphs : List Glyph)
deriving DecidableEq

/-- `filter_glyph_container` over the object store: for a
`GlyphClassName`, deep-copy the referenced definition (allocate), rename
the copy `f"{name}_{len(copy_list)}"`, record it in the per-merge table
and filter the copy's glyph list; all other variants leave the store
untouched. -/
def filterGlyphContainerHeap (gset : GlyphSet) (heap : ClassHeap) (refs : HeapRefs) :
    HeapContainer → HeapContainer × ClassHeap × HeapRefs
  | .glyphName g =>
      (if g ∈ gset then .glyphName g else .glyphClass [], heap, refs)
  | .glyphClass gs => (.glyphClass (filterGlyphs gset gs), heap, refs)
  | .glyphClassName ref =>
      let orig := heap.getD ref ⟨"", []⟩
      let n := (heapRefsLookup refs orig.name).length
      let copyDef : GlyphClassDefinitionObj :=
        ⟨orig.name ++ "_" ++ Nat.repr n, filterGlyphs gset orig.glyphs⟩
      let newId := heap.length
      let heap' := heap ++ [copyDef]
      let refs' := heapRefsAdd refs orig.name newId
      (if copyDef.glyphs.isEmpty then .glyphClass [] else .glyphClassName newId, heap', refs')
  | .markClassName name gs =>
      let filtered := filterGlyphs gset gs
      (if filtered.isEmpty then .glyphClass [] else .markClassName name filtered, heap, refs)

/-! ## Nat.repr injectivity

`filter_glyph_container` and `_deduplicate_class_defs` mint class names
with Python f-strings `f"{name}_{index}"`; distinctness of minted names
reduces to injectivity of the decimal rendering `Nat.repr`, which we
prove here. -/

theorem toDigitsCore_eq_append (b : Nat) :
    ∀ (f n : Nat) (l : List Char),
      Nat.toDigitsCore b f n l = Nat.toDigitsCore b f n [] ++ l := by
  intro f
  induction f with
  | zero => intro n l; simp [Nat.toDigitsCore]
  | succ f ih =>
    intro n l
    simp only [Nat.toDigitsCore]
    by_cases h : n / b = 0
    · simp [h]
    · simp only [h, if_false]
      rw [ih (n / b) (Nat.digitChar (n % b) :: l),
        ih (n / b) (Nat.digitChar (n % b) :: []), List.append_assoc]
      simp

theorem toDigitsCore_fuel (b : Nat) (hb : 2 ≤ b) :
    ∀ (n f₁ f₂ : Nat), n < f₁ → n < f₂ →
      Nat.toDigitsCore b f₁ n [] = Nat.toDigitsCore b f₂ n [] := by
  intro n
  induction n using Nat.strong_induction_on with
  | _ n ih =>
    intro f₁ f₂ h₁ h₂
    obtain ⟨g₁, rfl⟩ : ∃ g, f₁ = g + 1 := ⟨f₁ - 1, by omega⟩
    obtain ⟨g₂, rfl⟩ : ∃ g, f₂ = g + 1 := ⟨f₂ - 1, by omega⟩
    simp only [Nat.toDigitsCore]
    by_cases h : n / b = 0
    · simp [h]
    · simp only [h, if_false]
      rw [toDigitsCore_eq_append b g₁ (n / b),
        toDigitsCore_eq_append b g₂ (n / b)]
      have hn : n ≠ 0 := by
        intro h0
        rw [h0, Nat.zero_div] at h
        exact h rfl
      have hdiv : n / b < n := Nat.div_lt_self (Nat.pos_of_ne_zero hn) (by omega)
      rw [ih (n / b) hdiv g₁ g₂ (by omega) (by omega)]

/-- One unfolding of the digit list of `Nat.repr`. -/
theorem toDigits_ten_eq (n : Nat) :
    Nat.toDigits 10 n =
      if n < 10 then [Nat.digitChar n]
      else Nat.toDigits 10 (n / 10) ++ [Nat.digitChar (n % 10)] := by
  by_cases h : n < 10
  · have h0 : n / 10 = 0 := Nat.div_eq_of_lt h
    have hm : n % 10 = n := Nat.mod_eq_of_lt h
    simp [Nat.toDigits, Nat.toDigitsCore, h0, hm, h]
  · have h0 : ¬ n / 10 = 0 := by omega
    simp only [Nat.toDigits, Nat.toDigitsCore, h0, if_false, h]
    rw [toDigitsCore_eq_append 10 n (n / 10)]
    congr 1
    exact toDigitsCore_fuel 10 (by norm_num) (n / 10) n (n / 10 + 1) (by omega) (by omega)

theorem toDigits_ten_ne_nil (n : Nat) : Nat.toDigits 10 n ≠ [] := by
  rw [toDigits_ten_eq]
  by_cases h : n < 10 <;> simp [h]

theorem digitChar_inj_lt_ten :
    ∀ m < 10, ∀ n < 10, Nat.digitChar m = Nat.digitChar n → m = n := by
  decide

theorem Nat.repr_injective : Function.Injective Nat.repr := by
  have key : ∀ m n : Nat, Nat.toDigits 10 m = Nat.toDigits 10 n → m = n := by
    intro m
    induction m using Nat.strong_induction_on with
    | _ m ih =>
      intro n h
      rw [toDigits_ten_eq m, toDigits_ten_eq n] at h
      by_cases hm : m < 10 <;> by_cases hn : n < 10
      · simp only [hm, hn, if_true] at h
        exact digitChar_inj_lt_ten m hm n hn (List.singleton_inj.mp h)
      · simp only [hm, hn, if_true, if_false] at h
        have := congrArg List.length h
        simp at this
        exact absurd this (toDigits_ten_ne_nil _)
      · simp only [hm, hn, if_true, if_false] at h
        have := congrArg List.length h
        simp at this
        exact absurd this (toDigits_ten_ne_nil _)
      · simp only [hm, hn, if_false] at h
        obtain ⟨h₁, h₂⟩ := List.append_inj' h (by simp)
        have hdiv : m / 10 = n / 10 := ih (m / 10) (Nat.div_lt_self (by omega) (by norm_num)) _ h₁
        have hmod : m % 10 = n % 10 :=
          digitChar_inj_lt_ten _ (Nat.mod_lt _ (by norm_num)) _ (Nat.mod_lt _ (by norm_num))
            (List.singleton_inj.mp h₂)
        omega
  intro m n h
  apply key
  have : (Nat.repr m).data = (Nat.repr n).data := congrArg String.data h
  simpa [Nat.repr, List.asString] using this

theorem String.append_left_cancel {s t₁ t₂ : String} (h : s ++ t₁ = s ++ t₂) : t₁ = t₂ := by
  have hd : (s ++ t₁).data = (s ++ t₂).data := congrArg String.data h
  simp only [String.data_append] at hd
  exact String.ext (List.append_cancel_left hd)

theorem repr_suffix_inj (s : String) {a b : Nat}
    (h : s ++ Nat.repr a = s ++ Nat.repr b) : a = b :=
  Nat.repr_injective (String.append_left_cancel h)

/-! ## Lemmas on the container and sequence filters -/

theorem filterGlyphs_idem (gset : GlyphSet) (l : List Glyph) :
    filterGlyphs gset (filterGlyphs gset l) = filterGlyphs gset l := by
  simp [filterGlyphs, List.filter_filter]

/-- Every glyph surviving `filter_glyphs` is in the glyph set. -/
theorem filterGlyphs_mem (gset : GlyphSet) (l : List Glyph) :
    ∀ g ∈ filterGlyphs gset l, g ∈ gset := by
  intro g hg
  simp only [filterGlyphs, List.mem_filter, decide_eq_true_eq] at hg
  exact hg.2

/-- A filtered container resolves, under the glyph set, to exactly its
own glyph set: re-filtering its glyphs changes nothing. -/
theorem filterGlyphContainer_glyphSet_stable (gset : GlyphSet) (refs : Refs)
    (c : GlyphContainer) :
    filterGlyphs gset ((filterGlyphContainer gset refs c).1.glyphSet)
      = (filterGlyphContainer gset refs c).1.glyphSet := by
  cases c with
  | glyphName g =>
      by_cases h : g ∈ gset <;>
        simp [filterGlyphContainer, GlyphContainer.glyphSet, filterGlyphs, h]
  | glyphClass gs =>
      simp [filterGlyphContainer, GlyphContainer.glyphSet, filterGlyphs_idem]
  | glyphClassName name gs =>
      simp only [filterGlyphContainer]
      split <;> simp [GlyphContainer.glyphSet, filterGlyphs_idem, filterGlyphs]
  | markClassName name gs =>
      simp only [filterGlyphContainer]
      split <;> simp [GlyphContainer.glyphSet, filterGlyphs_idem, filterGlyphs]

/-- A filtered container is a live slot iff its glyph set is
non-empty. -/
theorem slotLive_filterGlyphContainer (gset : GlyphSet) (refs : Refs) (c : GlyphContainer) :
    slotLive gset (filterGlyphContainer gset refs c).1
      = !((filterGlyphContainer gset refs c).1.glyphSet.isEmpty) := by
  simp [slotLive, filterGlyphContainer_glyphSet_stable]

/-- Every slot of a filtered sequence is itself a filtered container
output, hence stable under re-filtering. -/
theorem filterSequence_glyphSet_stable (gset : GlyphSet) :
    ∀ (slots : List GlyphContainer) (refs : Refs),
      ∀ c ∈ (filterSequence gset refs slots).1,
        filterGlyphs gset c.glyphSet = c.glyphSet := by
  intro slots
  induction slots with
  | nil => intro refs c hc; simp [filterSequence] at hc
  | cons a rest ih =>
      intro refs c hc
      rcases h1 : filterGlyphContainer gset refs a with ⟨c1, r1⟩
      rcases h2 : filterSequence gset r1 rest with ⟨rest', r2⟩
      simp only [filterSequence, h1, h2, List.mem_cons] at hc
      rcases hc with rfl | hc
      · have := filterGlyphContainer_glyphSet_stable gset refs a
        rw [h1] at this
        exact this
      · have := ih r1
        rw [h2] at this
        exact this c hc

/-- If a filtered sequence has no empty slot, all its slots are live. -/
theorem slotsLive_of_filtered (gset : GlyphSet) (slots : List GlyphContainer) (refs : Refs)
    (h : hasAnyEmptySlots (filterSequence gset refs slots).1 = false) :
    slotsLive gset (filterSequence gset refs slots).1 = true := by
  simp only [hasAnyEmptySlots, List.any_eq_false] at h
  simp only [slotsLive, List.all_eq_true]
  intro c hc
  have hstable := filterSequence_glyphSet_stable gset slots refs c hc
  have hne := h c hc
  simp only [slotLive, hstable]
  simpa using hne

/-- A filtered container with non-empty glyph set is a live slot. -/
theorem slotLive_of_filtered_ne (gset : GlyphSet) (refs : Refs) (c : GlyphContainer)
    (h : ((filterGlyphContainer gset refs c).1.glyphSet.isEmpty) = false) :
    slotLive gset (filterGlyphContainer gset refs c).1 = true := by
  rw [slotLive_filterGlyphContainer, h]
  rfl

theorem slotsLive_of_eq (gset : GlyphSet) {slots : List GlyphContainer} {refs : Refs}
    {out : List GlyphContainer} {r' : Refs}
    (heq : filterSequence gset refs slots = (out, r'))
    (h : hasAnyEmptySlots out = false) : slotsLive gset out = true := by
  have := slotsLive_of_filtered gset slots refs (by rw [heq]; exact h)
  rwa [heq] at this

theorem slotLive_of_eq (gset : GlyphSet) {c : GlyphContainer} {refs : Refs}
    {out : GlyphContainer} {r' : Refs}
    (heq : filterGlyphContainer gset refs c = (out, r'))
    (h : out.glyphSet.isEmpty = false) : slotLive gset out = true := by
  have := slotLive_of_filtered_ne gset refs c (by rw [heq]; exact h)
  rwa [heq] at this

theorem slotLive_glyphName (gset : GlyphSet) (g : Glyph) (h : g ∈ gset) :
    slotLive gset (.glyphName g) = true := by
  simp [slotLive, GlyphContainer.glyphSet, filterGlyphs, h]

theorem slotLive_glyphClass (gset : GlyphSet) (l : List Glyph) (hne : l ≠ [])
    (h : ∀ g ∈ l, g ∈ gset) : slotLive gset (.glyphClass l) = true := by
  simp only [slotLive, GlyphContainer.glyphSet]
  have : filterGlyphs gset l = l := by
    simp only [filterGlyphs]
    exact List.filter_eq_self.mpr (fun a ha => by simpa using h a ha)
  rw [this]
  simpa using hne

theorem dictInsert_forall {P : Glyph × Glyph → Prop} (d : List (Glyph × Glyph)) (k v : Glyph)
    (hd : ∀ p ∈ d, P p) (hkv : P (k, v)) : ∀ p ∈ dictInsert d k v, P p := by
  intro p hp
  simp only [dictInsert] at hp
  split at hp
  · obtain ⟨q, hq, rfl⟩ := List.mem_map.mp hp
    by_cases hqk : q.1 = k
    · simpa [hqk] using hkv
    · simpa [hqk] using hd q hq
  · rcases List.mem_append.mp hp with hq | hq
    · exact hd p hq
    · simp at hq; subst hq; exact hkv

/-- Every pair of the filtered single-substitution mapping has both its
input and output glyph in the final glyph set. -/
theorem singleSubstMapping_mem (gset : GlyphSet) (o r : List Glyph) :
    ∀ p ∈ singleSubstMapping gset o r, p.1 ∈ gset ∧ p.2 ∈ gset := by
  have main : ∀ (pairs : List (Glyph × Glyph)) (d : List (Glyph × Glyph)),
      (∀ p ∈ d, p.1 ∈ gset ∧ p.2 ∈ gset) →
      ∀ p ∈ pairs.foldl
          (fun d p => if p.1 ∈ gset ∧ p.2 ∈ gset then dictInsert d p.1 p.2 else d) d,
        p.1 ∈ gset ∧ p.2 ∈ gset := by
    intro pairs
    induction pairs with
    | nil => intro d hd p hp; exact hd p hp
    | cons a rest ih =>
        intro d hd p hp
        simp only [List.foldl_cons] at hp
        by_cases ha : a.1 ∈ gset ∧ a.2 ∈ gset
        · rw [if_pos ha] at hp
          exact ih _ (dictInsert_forall d a.1 a.2 hd (by simpa using ha)) p hp
        · rw [if_neg ha] at hp
          exact ih _ hd p hp
  intro p hp
  exact main _ [] (by simp) p hp

theorem statementsContextLive_eq_all (gset : GlyphSet) :
    ∀ sts : List Statement, statementsContextLive gset sts = sts.all (statementContextLive gset)
  | [] => rfl
  | st :: rest => by
      simp [statementsContextLive, statementsContextLive_eq_all gset rest]

/-- Every context triple surviving `filterChainContexts` has only live
slots. -/
theorem filterChainContexts_live (gset : GlyphSet) :
    ∀ (ctxs : List (List GlyphContainer × List GlyphContainer × List GlyphContainer))
      (refs : Refs),
      ∀ c ∈ (filterChainContexts gset refs ctxs).1,
        slotsLive gset c.1 = true ∧ slotsLive gset c.2.1 = true ∧ slotsLive gset c.2.2 = true := by
  intro ctxs
  induction ctxs with
  | nil => intro refs c hc; simp [filterChainContexts] at hc
  | cons a rest ih =>
      intro refs c hc
      rcases h1 : filterSequence gset refs a.1 with ⟨p', r1⟩
      rcases h2 : filterSequence gset r1 a.2.1 with ⟨g', r2⟩
      rcases h3 : filterSequence gset r2 a.2.2 with ⟨s', r3⟩
      rcases h4 : filterChainContexts gset r3 rest with ⟨rest', r4⟩
      simp only [filterChainContexts, h1, h2, h3, h4] at hc
      split at hc
      · have := ih r3
        rw [h4] at this
        exact this c hc
      · rename_i hcond
        simp only [Bool.or_eq_true, not_or, Bool.not_eq_true] at hcond
        simp only [List.mem_cons] at hc
        rcases hc with rfl | hc
        · exact ⟨slotsLive_of_eq gset h1 hcond.1.1,
            slotsLive_of_eq gset h2 hcond.2, slotsLive_of_eq gset h3 hcond.1.2⟩
        · have := ih r3
          rw [h4] at this
          exact this c hc

mutual

theorem filterStatement_live_aux (gset : GlyphSet) (st : Statement) (refs : Refs) :
    ∀ s', (filterStatement gset st refs).1 = some s' → statementContextLive gset s' = true := by
  cases st with
  | languageSystem a b => intro s' h; simp [filterStatement] at h
  | glyphClassDefinition n g => intro s' h; simp [filterStatement] at h
  | comment t =>
      intro s' h; simp only [filterStatement] at h
      simp at h; rw [← h]; simp [statementContextLive]
  | scriptStatement n =>
      intro s' h; simp only [filterStatement] at h
      simp at h; rw [← h]; simp [statementContextLive]
  | languageStatement n =>
      intro s' h; simp only [filterStatement] at h
      simp at h; rw [← h]; simp [statementContextLive]
  | lookupReference n =>
      intro s' h; simp only [filterStatement] at h
      simp at h; rw [← h]; simp [statementContextLive]
  | markClassDefinition cn glyphs =>
      intro s' h
      rcases h1 : filterGlyphContainer gset refs glyphs with ⟨g', r1⟩
      simp only [filterStatement, h1] at h
      split at h
      · simp at h
      · rename_i hcond
        simp only [Bool.not_eq_true] at hcond
        simp at h; rw [← h]
        simp only [statementContextLive]
        exact slotLive_of_eq gset h1 (by simpa using hcond)
  | ligatureCaretByIndex glyphs =>
      intro s' h
      rcases h1 : filterGlyphContainer gset refs glyphs with ⟨g', r1⟩
      simp only [filterStatement, h1] at h
      split at h
      · simp at h
      · rename_i hcond
        simp only [Bool.not_eq_true] at hcond
        simp at h; rw [← h]
        simp only [statementContextLive]
        exact slotLive_of_eq gset h1 (by simpa using hcond)
  | ligatureCaretByPos glyphs =>
      intro s' h
      rcases h1 : filterGlyphContainer gset refs glyphs with ⟨g', r1⟩
      simp only [filterStatement, h1] at h
      split at h
      · simp at h
      · rename_i hcond
        simp only [Bool.not_eq_true] at hcond
        simp at h; rw [← h]
        simp only [statementContextLive]
        exact slotLive_of_eq gset h1 (by simpa using hcond)
  | cursivePos glyphclass =>
      intro s' h
      rcases h1 : filterGlyphContainer gset refs glyphclass with ⟨g', r1⟩
      simp only [filterStatement, h1] at h
      split at h
      · simp at h
      · rename_i hcond
        simp only [Bool.not_eq_true] at hcond
        simp at h; rw [← h]
        simp only [statementContextLive]
        exact slotLive_of_eq gset h1 (by simpa using hcond)
  | markBasePos base =>
      intro s' h
      rcases h1 : filterGlyphContainer gset refs base with ⟨g', r1⟩
      simp only [filterStatement, h1] at h
      split at h
      · simp at h
      · rename_i hcond
        simp only [Bool.not_eq_true] at hcond
        simp at h; rw [← h]
        simp only [statementContextLive]
        exact slotLive_of_eq gset h1 (by simpa using hcond)
  | markLigPos ligatures =>
      intro s' h
      rcases h1 : filterGlyphContainer gset refs ligatures with ⟨g', r1⟩
      simp only [filterStatement, h1] at h
      split at h
      · simp at h
      · rename_i hcond
        simp only [Bool.not_eq_true] at hcond
        simp at h; rw [← h]
        simp only [statementContextLive]
        exact slotLive_of_eq gset h1 (by simpa using hcond)
  | markMarkPos baseMarks =>
      intro s' h
      rcases h1 : filterGlyphContainer gset refs baseMarks with ⟨g', r1⟩
      simp only [filterStatement, h1] at h
      split at h
      · simp at h
      · rename_i hcond
        simp only [Bool.not_eq_true] at hcond
        simp at h; rw [← h]
        simp only [statementContextLive]
        exact slotLive_of_eq gset h1 (by simpa using hcond)
  | alternateSubst pre glyph suf replacement =>
      intro s' h
      rcases h1 : filterGlyphContainer gset refs glyph with ⟨glyph', r1⟩
      rcases h2 : filterGlyphContainer gset r1 replacement with ⟨replacement', r2⟩
      rcases h3 : filterSequence gset r2 pre with ⟨pre', r3⟩
      rcases h4 : filterSequence gset r3 suf with ⟨suf', r4⟩
      simp only [filterStatement, h1, h2, h3, h4] at h
      split at h
      · simp at h
      · rename_i hcond
        simp only [Bool.or_eq_true, not_or, Bool.not_eq_true] at hcond
        simp at h; rw [← h]
        simp only [statementContextLive, Bool.and_eq_true]
        exact ⟨⟨slotsLive_of_eq gset h3 hcond.1.1.1, slotsLive_of_eq gset h4 hcond.1.1.2⟩,
          slotLive_of_eq gset h1 hcond.2⟩
  | chainContextSubst pre glyphs suf =>
      intro s' h
      rcases h1 : filterSequence gset refs pre with ⟨pre', r1⟩
      rcases h2 : filterSequence gset r1 suf with ⟨suf', r2⟩
      rcases h3 : filterSequence gset r2 glyphs with ⟨glyphs', r3⟩
      simp only [filterStatement, h1, h2, h3] at h
      split at h
      · simp at h
      · rename_i hcond
        simp only [Bool.or_eq_true, not_or, Bool.not_eq_true] at hcond
        simp at h; rw [← h]
        simp only [statementContextLive, Bool.and_eq_true]
        exact ⟨⟨slotsLive_of_eq gset h1 hcond.1.1, slotsLive_of_eq gset h3 hcond.2⟩,
          slotsLive_of_eq gset h2 hcond.1.2⟩
  | chainContextPos pre glyphs suf =>
      intro s' h
      rcases h1 : filterSequence gset refs pre with ⟨pre', r1⟩
      rcases h2 : filterSequence gset r1 suf with ⟨suf', r2⟩
      rcases h3 : filterSequence gset r2 glyphs with ⟨glyphs', r3⟩
      simp only [filterStatement, h1, h2, h3] at h
      split at h
      · simp at h
      · rename_i hcond
        simp only [Bool.or_eq_true, not_or, Bool.not_eq_true] at hcond
        simp at h; rw [← h]
        simp only [statementContextLive, Bool.and_eq_true]
        exact ⟨⟨slotsLive_of_eq gset h1 hcond.1.1, slotsLive_of_eq gset h3 hcond.2⟩,
          slotsLive_of_eq gset h2 hcond.1.2⟩
  | ignoreSubst ctxs =>
      intro s' h
      rcases h1 : filterChainContexts gset refs ctxs with ⟨ctxs', r1⟩
      simp only [filterStatement, h1] at h
      split at h
      · simp at h
      · simp at h; rw [← h]
        simp only [statementContextLive, List.all_eq_true, Bool.and_eq_true]
        intro c hc
        have := filterChainContexts_live gset ctxs refs c (by rw [h1]; exact hc)
        exact ⟨⟨this.1, this.2.1⟩, this.2.2⟩
  | ignorePos ctxs =>
      intro s' h
      rcases h1 : filterChainContexts gset refs ctxs with ⟨ctxs', r1⟩
      simp only [filterStatement, h1] at h
      split at h
      · simp at h
      · simp at h; rw [← h]
        simp only [statementContextLive, List.all_eq_true, Bool.and_eq_true]
        intro c hc
        have := filterChainContexts_live gset ctxs refs c (by rw [h1]; exact hc)
        exact ⟨⟨this.1, this.2.1⟩, this.2.2⟩
  | ligatureSubst pre glyphs suf replacement =>
      intro s' h
      rcases h1 : filterSequence gset refs glyphs with ⟨glyphs', r1⟩
      rcases h2 : filterGlyphContainer gset r1 replacement with ⟨replacement', r2⟩
      rcases h3 : filterSequence gset r2 pre with ⟨pre', r3⟩
      rcases h4 : filterSequence gset r3 suf with ⟨suf', r4⟩
      simp only [filterStatement, h1, h2, h3, h4] at h
      split at h
      · simp at h
      · rename_i hcond
        simp only [Bool.or_eq_true, not_or, Bool.not_eq_true] at hcond
        simp at h; rw [← h]
        simp only [statementContextLive, Bool.and_eq_true]
        exact ⟨⟨slotsLive_of_eq gset h3 hcond.1.1.1, slotsLive_of_eq gset h1 hcond.1.1.2⟩,
          slotsLive_of_eq gset h4 hcond.1.2⟩
  | lookupFlag ma mfs =>
      intro s' h
      cases ma with
      | some a =>
          rcases h1 : filterGlyphContainer gset refs a with ⟨a', r1⟩
          cases mfs with
          | some f =>
              rcases h2 : filterGlyphContainer gset r1 f with ⟨f', r2⟩
              simp only [filterStatement, h1, h2] at h
              split at h
              · simp at h
              · split at h
                · simp at h
                · simp at h; rw [← h]; simp [statementContextLive]
          | none =>
              simp only [filterStatement, h1] at h
              split at h
              · simp at h
              · simp at h; rw [← h]; simp [statementContextLive]
      | none =>
          cases mfs with
          | some f =>
              rcases h1 : filterGlyphContainer gset refs f with ⟨f', r1⟩
              simp only [filterStatement, h1] at h
              split at h
              · simp at h
              · simp at h; rw [← h]; simp [statementContextLive]
          | none =>
              simp only [filterStatement] at h
              simp at h; rw [← h]; simp [statementContextLive]
  | multipleSubst pre glyph suf replacement =>
      intro s' h
      rcases h1 : filterGlyphContainer gset refs glyph with ⟨glyph', r1⟩
      rcases h2 : filterSequence gset r1 replacement with ⟨replacement', r2⟩
      rcases h3 : filterSequence gset r2 pre with ⟨pre', r3⟩
      rcases h4 : filterSequence gset r3 suf with ⟨suf', r4⟩
      simp only [filterStatement, h1, h2, h3, h4] at h
      split at h
      · simp at h
      · rename_i hcond
        simp only [Bool.or_eq_true, not_or, Bool.not_eq_true] at hcond
        simp at h; rw [← h]
        simp only [statementContextLive, Bool.and_eq_true]
        exact ⟨⟨slotsLive_of_eq gset h3 hcond.1.1.1, slotLive_of_eq gset h1 hcond.2⟩,
          slotsLive_of_eq gset h4 hcond.1.2⟩
  | pairPos glyphs1 glyphs2 =>
      intro s' h
      rcases h1 : filterGlyphContainer gset refs glyphs1 with ⟨g1', r1⟩
      rcases h2 : filterGlyphContainer gset r1 glyphs2 with ⟨g2', r2⟩
      simp only [filterStatement, h1, h2] at h
      split at h
      · simp at h
      · rename_i hcond
        simp only [Bool.or_eq_true, not_or, Bool.not_eq_true] at hcond
        simp at h; rw [← h]
        simp only [statementContextLive, Bool.and_eq_true]
        exact ⟨slotLive_of_eq gset h1 hcond.1, slotLive_of_eq gset h2 hcond.2⟩
  | reverseChainSingleSubst oldPre oldSuf glyphs replacements =>
      intro s' h
      rcases h1 : filterSequence gset refs oldPre with ⟨oldPre', r1⟩
      rcases h2 : filterSequence gset r1 oldSuf with ⟨oldSuf', r2⟩
      rcases h3 : filterSequence gset r2 glyphs with ⟨glyphs', r3⟩
      rcases h4 : filterSequence gset r3 replacements with ⟨replacements', r4⟩
      simp only [filterStatement, h1, h2, h3, h4] at h
      split at h
      · simp at h
      · rename_i hcond
        simp only [Bool.or_eq_true, not_or, Bool.not_eq_true] at hcond
        simp at h; rw [← h]
        simp only [statementContextLive, Bool.and_eq_true]
        exact ⟨⟨slotsLive_of_eq gset h1 hcond.1.1.1, slotsLive_of_eq gset h2 hcond.1.2⟩,
          slotsLive_of_eq gset h3 hcond.2⟩
  | singleSubst pre suf glyphs0 replacements0 =>
      intro s' h
      rcases h1 : filterSequence gset refs pre with ⟨pre', r1⟩
      rcases h2 : filterSequence gset r1 suf with ⟨suf', r2⟩
      simp only [filterStatement, h1, h2] at h
      split at h
      · simp at h
      · rename_i hcond
        simp only [Bool.or_eq_true, not_or, Bool.not_eq_true] at hcond
        split at h
        · simp at h
        · rename_i hmne
          simp only [Bool.not_eq_true, List.isEmpty_eq_false] at hmne
          have hmem := singleSubstMapping_mem gset glyphs0.glyphSet replacements0.glyphSet
          obtain ⟨p0, m', hm⟩ :
              ∃ p0 m', singleSubstMapping gset glyphs0.glyphSet replacements0.glyphSet
                = p0 :: m' := by
            rcases hc : singleSubstMapping gset glyphs0.glyphSet replacements0.glyphSet with
              _ | ⟨p0, m'⟩
            · rw [hc] at hmne; simp at hmne
            · exact ⟨p0, m', rfl⟩
          split at h
          · replace h := Option.some.inj h
            rw [← h]
            simp only [statementContextLive, Bool.and_eq_true]
            refine ⟨⟨slotsLive_of_eq gset h1 hcond.1, slotsLive_of_eq gset h2 hcond.2⟩, ?_⟩
            have hhead :
                (((singleSubstMapping gset glyphs0.glyphSet replacements0.glyphSet).map
                  (fun p => p.1)).headD "") = p0.1 := by
              rw [hm]; rfl
            rw [hhead]
            exact slotLive_glyphName gset p0.1 ((hmem p0 (by rw [hm]; simp)).1)
          · replace h := Option.some.inj h
            rw [← h]
            simp only [statementContextLive, Bool.and_eq_true]
            refine ⟨⟨slotsLive_of_eq gset h1 hcond.1, slotsLive_of_eq gset h2 hcond.2⟩, ?_⟩
            apply slotLive_glyphClass
            · rw [hm]; simp
            · intro g hg
              obtain ⟨q, hq, rfl⟩ := List.mem_map.mp hg
              exact (hmem q hq).1
  | singlePos pre suf pos0 =>
      intro s' h
      rcases h1 : filterSequence gset refs pre with ⟨pre', r1⟩
      rcases h2 : filterSequence gset r1 suf with ⟨suf', r2⟩
      rcases h3 : filterGlyphContainer gset r2 pos0 with ⟨pos0', r3⟩
      simp only [filterStatement, h1, h2, h3] at h
      split at h
      · simp at h
      · rename_i hcond
        simp only [Bool.or_eq_true, not_or, Bool.not_eq_true] at hcond
        simp at h; rw [← h]
        simp only [statementContextLive, Bool.and_eq_true]
        have hpre : slotsLive gset pre' = true := by
          apply slotsLive_of_eq gset h1
          simp only [hasAnyEmptySlots]
          exact hcond.1.1
        have hsuf : slotsLive gset suf' = true := by
          apply slotsLive_of_eq gset h2
          simp only [hasAnyEmptySlots]
          exact hcond.1.2
        exact ⟨⟨hpre, hsuf⟩, slotLive_of_eq gset h3 hcond.2⟩
  | featureBlock name sts =>
      intro s' h
      rcases h1 : filterStatements gset sts refs with ⟨sts', refs'⟩
      simp only [filterStatement, h1] at h
      split at h
      · simp at h
      · simp at h; rw [← h]
        simp only [statementContextLive, statementsContextLive_eq_all, List.all_eq_true]
        intro s hs
        have := filterStatements_live_aux gset sts refs s (by rw [h1]; exact hs)
        exact this
  | lookupBlock name sts =>
      intro s' h
      rcases h1 : filterStatements gset sts refs with ⟨sts', refs'⟩
      simp only [filterStatement, h1] at h
      split at h
      · simp at h; rw [← h]
        simp [statementContextLive, statementsContextLive]
      · simp at h; rw [← h]
        simp only [statementContextLive, statementsContextLive_eq_all, List.all_eq_true]
        intro s hs
        have := filterStatements_live_aux gset sts refs s (by rw [h1]; exact hs)
        exact this

theorem filterStatements_live_aux (gset : GlyphSet) (sts : List Statement) (refs : Refs) :
    ∀ s' ∈ (filterStatements gset sts refs).1, statementContextLive gset s' = true := by
  cases sts with
  | nil => intro s' h; simp [filterStatements] at h
  | cons st rest =>
      intro s' h
      rcases h1 : filterStatement gset st refs with ⟨st', refs'⟩
      rcases h2 : filterStatements gset rest refs' with ⟨rest', refs''⟩
      simp only [filterStatements, h1, h2] at h
      cases st' with
      | some s0 =>
          simp only [List.mem_cons] at h
          rcases h with rfl | h
          · exact filterStatement_live_aux gset st refs s' (by rw [h1])
          · have := filterStatements_live_aux gset rest refs' s' (by rw [h2]; exact h)
            exact this
      | none =>
          simp only at h
          have := filterStatements_live_aux gset rest refs' s' (by rw [h2]; exact h)
          exact this

end

/-! ## Monotonicity of the layout closure -/

theorem addOutputGlyph_glyphset_mono (s : CloState) (g : Glyph) :
    s.glyphset ⊆ (addOutputGlyph s g).glyphset := by
  simp only [addOutputGlyph]
  exact Finset.subset_insert g s.glyphset

theorem foldl_glyphset_mono {α : Type _} (f : CloState → α → CloState)
    (hf : ∀ s a, s.glyphset ⊆ (f s a).glyphset) :
    ∀ (l : List α) (s : CloState), s.glyphset ⊆ (l.foldl f s).glyphset := by
  intro l
  induction l with
  | nil => intro s; exact subset_rfl
  | cons a rest ih =>
      intro s
      simp only [List.foldl_cons]
      exact (hf s a).trans (ih (f s a))

theorem addOutputGlyphs_glyphset_mono (s : CloState) (gs : List Glyph) :
    s.glyphset ⊆ (addOutputGlyphs s gs).glyphset :=
  foldl_glyphset_mono addOutputGlyph addOutputGlyph_glyphset_mono gs s

theorem addOutputGlyphs_glyphset_mono' (inc : List Glyph) (g : GlyphSet) (r : Refs)
    (gs : List Glyph) : g ⊆ (addOutputGlyphs ⟨inc, g, r⟩ gs).glyphset :=
  addOutputGlyphs_glyphset_mono ⟨inc, g, r⟩ gs

theorem foldl_glyphset_mono' {α : Type _} (f : CloState → α → CloState)
    (hf : ∀ s a, s.glyphset ⊆ (f s a).glyphset) (l : List α)
    (inc : List Glyph) (g : GlyphSet) (r : Refs) :
    g ⊆ (List.foldl f ⟨inc, g, r⟩ l).glyphset :=
  foldl_glyphset_mono f hf l ⟨inc, g, r⟩

/-- One closure step never removes a glyph from the glyph set. -/
theorem closeSubstStatement_glyphset_mono (st : Statement) (s : CloState) :
    s.glyphset ⊆ (closeSubstStatement st s).glyphset := by
  cases st with
  | alternateSubst pre glyph suf replacement =>
      simp only [closeSubstStatement]
      split
      · exact subset_rfl
      · split
        · exact subset_rfl
        · split
          · exact subset_rfl
          · exact addOutputGlyphs_glyphset_mono' s.incoming s.glyphset _ _
  | multipleSubst pre glyph suf replacement =>
      simp only [closeSubstStatement]
      split
      · exact subset_rfl
      · split
        · exact subset_rfl
        · split
          · exact subset_rfl
          · exact foldl_glyphset_mono'
              (fun (s : CloState) (a : GlyphContainer) => addOutputGlyphs s a.glyphSet)
              (fun (s : CloState) (a : GlyphContainer) =>
                addOutputGlyphs_glyphset_mono s a.glyphSet) _ s.incoming s.glyphset _
  | ligatureSubst pre glyphs suf replacement =>
      simp only [closeSubstStatement]
      split
      · exact subset_rfl
      · split
        · exact subset_rfl
        · split
          · exact subset_rfl
          · exact addOutputGlyphs_glyphset_mono' s.incoming s.glyphset _ _
  | chainContextSubst pre glyphs suf =>
      simp only [closeSubstStatement]
      split
      · exact subset_rfl
      · exact subset_rfl
  | singleSubst pre suf glyphs0 replacements0 =>
      simp only [closeSubstStatement]
      split
      · exact subset_rfl
      · split
        · exact subset_rfl
        · exact foldl_glyphset_mono'
            (fun (s : CloState) (p : Glyph × Glyph) =>
              if p.1 ∈ s.glyphset then addOutputGlyph s p.2 else s)
            (fun (s : CloState) (p : Glyph × Glyph) => by
              dsimp only
              split
              · exact addOutputGlyph_glyphset_mono s p.2
              · exact subset_rfl) _ s.incoming s.glyphset _
  | _ => exact subset_rfl


mutual

theorem closeStatementRec_glyphset_mono (st : Statement) (s : CloState) :
    s.glyphset ⊆ (closeStatementRec st s).glyphset := by
  cases st
  case featureBlock name sts =>
      simp only [closeStatementRec]
      exact subset_trans (performLayoutClosure_glyphset_mono sts s)
        (closeSubstStatement_glyphset_mono _ _)
  case lookupBlock name sts =>
      simp only [closeStatementRec]
      exact subset_trans (performLayoutClosure_glyphset_mono sts s)
        (closeSubstStatement_glyphset_mono _ _)
  all_goals
    simp only [closeStatementRec]
    exact closeSubstStatement_glyphset_mono _ _

theorem performLayoutClosure_glyphset_mono (sts : List Statement) (s : CloState) :
    s.glyphset ⊆ (performLayoutClosure sts s).glyphset := by
  cases sts with
  | nil => rw [performLayoutClosure]
  | cons st rest =>
      rw [performLayoutClosure]
      exact subset_trans (closeStatementRec_glyphset_mono st s)
        (performLayoutClosure_glyphset_mono rest (closeStatementRec st s))

end

/-! ## The closure fixpoint loop: monotonicity, early exit, round cap -/

theorem closureLoopGo_ok_mono (sts : List Statement) :
    ∀ (fuel count rounds : Nat) (s r : CloState),
      closureLoopGo sts fuel count rounds s = .ok r → s.glyphset ⊆ r.glyphset := by
  intro fuel
  induction fuel with
  | zero => intro count rounds s r h; cases h
  | succ fuel ih =>
      intro count rounds s r h
      rw [closureLoopGo] at h
      split at h
      · cases h; exact performLayoutClosure_glyphset_mono sts s
      · split at h
        · cases h
        · exact subset_trans (performLayoutClosure_glyphset_mono sts s) (ih _ _ _ _ h)

theorem closureLoopGo_early_exit (sts : List Statement) (fuel rounds : Nat) (s : CloState)
    (h : (performLayoutClosure sts s).glyphset.card = s.glyphset.card) :
    closureLoopGo sts (fuel + 1) s.glyphset.card rounds s = .ok (performLayoutClosure sts s) := by
  rw [closureLoopGo]
  rw [if_pos h]

theorem closureLoopGo_cap (sts : List Statement) :
    ∀ (k rounds fuel : Nat) (s : CloState), rounds + k = 10 → k + 1 ≤ fuel →
      (∀ j, j ≤ k →
        ((performLayoutClosure sts)^[j+1] s).glyphset.card
          ≠ ((performLayoutClosure sts)^[j] s).glyphset.card) →
      closureLoopGo sts fuel s.glyphset.card rounds s =
        .error "Layout closure failure; glyphset grew unreasonably" := by
  intro k
  induction k with
  | zero =>
      intro rounds fuel s hr hf hgrow
      obtain ⟨fuel', rfl⟩ : ∃ f, fuel = f + 1 := ⟨fuel - 1, by omega⟩
      rw [closureLoopGo]
      have h0 := hgrow 0 (le_refl 0)
      simp only [zero_add, Function.iterate_one, Function.iterate_zero, id_eq] at h0
      rw [if_neg h0, if_pos (by omega)]
  | succ k ih =>
      intro rounds fuel s hr hf hgrow
      obtain ⟨fuel', rfl⟩ : ∃ f, fuel = f + 1 := ⟨fuel - 1, by omega⟩
      rw [closureLoopGo]
      have h0 := hgrow 0 (Nat.zero_le _)
      simp only [zero_add, Function.iterate_one, Function.iterate_zero, id_eq] at h0
      rw [if_neg h0, if_neg (by omega)]
      refine ih (rounds + 1) fuel' (performLayoutClosure sts s) (by omega) (by omega) ?_
      intro j hj
      have := hgrow (j+1) (by omega)
      simpa [Function.iterate_succ_apply] using this

/-! ## Claims C1 and C2 -/

/-- C1: for every statement list and every glyph set, every rule in the
output of the layout subsetting pass (`filter_layout`) has all of its
context slots (prefix, input, suffix) resolving to a non-empty glyph
set under that glyph set; no rule any of whose slots filters to empty
survives filtering. -/
theorem filter_layout_dead_rule_elimination (gset : GlyphSet) (sts : List Statement)
    (refs : Refs) :
    ((filterStatements gset sts refs).1.all (statementContextLive gset)) = true := by
  rw [List.all_eq_true]
  intro s hs
  exact filterStatements_live_aux gset sts refs s hs

/-- C2: with layout handling `closure`, the merge driver's fixpoint
loop never shrinks the glyph set across rounds (an `ok` result's glyph
set contains the initial one), terminates normally as soon as a round
leaves the glyph-set size unchanged, and raises the fatal "Layout
closure failure" error after the hard cap of 10 rounds when every round
(including the eleventh, which trips the `rounds > 10` check) still
grows the glyph set. -/
theorem closure_loop_monotone_terminates_caps (sts : List Statement) (s : CloState) :
    (∀ r : CloState, closureLoop sts s = .ok r → s.glyphset ⊆ r.glyphset) ∧
    ((performLayoutClosure sts s).glyphset.card = s.glyphset.card →
      closureLoop sts s = .ok (performLayoutClosure sts s)) ∧
    ((∀ k, k ≤ 10 →
        ((performLayoutClosure sts)^[k+1] s).glyphset.card
          ≠ ((performLayoutClosure sts)^[k] s).glyphset.card) →
      closureLoop sts s = .error "Layout closure failure; glyphset grew unreasonably") :=
  ⟨fun r h => closureLoopGo_ok_mono sts 12 s.glyphset.card 0 s r h,
   fun h => closureLoopGo_early_exit sts 11 0 s h,
   fun h => closureLoopGo_cap sts 10 0 12 s (by omega) (by omega) h⟩

/-- Witness for C2: on an empty rule list the loop stops after one
stable round; on the reversed substitution chain the glyph set grows
for eleven straight rounds and the loop raises the fatal error. -/
theorem closure_loop_monotone_terminates_caps_witness :
    closureLoop ([] : List Statement) ⟨[], ∅, []⟩ =
      .ok (performLayoutClosure [] ⟨[], ∅, []⟩) ∧
    closureLoop closureChainStatements closureChainStart =
      .error "Layout closure failure; glyphset grew unreasonably" :=
  ⟨(closure_loop_monotone_terminates_caps [] ⟨[], ∅, []⟩).2.1 rfl,
   (closure_loop_monotone_terminates_caps closureChainStatements closureChainStart).2.2
     (by decide)⟩

/-! ## Output addition in the closure (claims C5 and C6) -/

theorem addIncoming_mem (inc : List Glyph) (g x : Glyph) (h : x ∈ inc) :
    x ∈ addIncoming inc g := by
  simp only [addIncoming]
  split
  · exact h
  · exact List.mem_append_left _ h

theorem addIncoming_self (inc : List Glyph) (g : Glyph) : g ∈ addIncoming inc g := by
  simp only [addIncoming]
  split
  · assumption
  · simp

theorem addOutputGlyph_incoming_mono (s : CloState) (g x : Glyph) (h : x ∈ s.incoming) :
    x ∈ (addOutputGlyph s g).incoming :=
  addIncoming_mem s.incoming g x h

theorem addOutputGlyphs_mem (gs : List Glyph) (s : CloState) :
    (∀ x ∈ s.incoming, x ∈ (addOutputGlyphs s gs).incoming) ∧
    (∀ g ∈ gs, g ∈ (addOutputGlyphs s gs).glyphset ∧ g ∈ (addOutputGlyphs s gs).incoming) := by
  induction gs generalizing s with
  | nil => simp [addOutputGlyphs]
  | cons a rest ih =>
      constructor
      · intro x hx
        simp only [addOutputGlyphs, List.foldl_cons]
        exact ((ih (addOutputGlyph s a)).1 x (addOutputGlyph_incoming_mono s a x hx))
      · intro g hg
        simp only [addOutputGlyphs, List.foldl_cons]
        rcases List.mem_cons.mp hg with rfl | hg
        · constructor
          · exact addOutputGlyphs_glyphset_mono (addOutputGlyph s g) rest
              (by simp [addOutputGlyph])
          · exact (ih (addOutputGlyph s g)).1 g (addIncoming_self s.incoming g)
        · exact (ih (addOutputGlyph s a)).2 g hg

/-- The per-pair fold of the single-substitution closure. -/
theorem singleSubstFold_adds (pairs : List (Glyph × Glyph)) :
    ∀ (s : CloState) (p : Glyph × Glyph), p ∈ pairs → p.1 ∈ s.glyphset →
      p.2 ∈ (pairs.foldl
        (fun s p => if p.1 ∈ s.glyphset then addOutputGlyph s p.2 else s) s).glyphset ∧
      p.2 ∈ (pairs.foldl
        (fun s p => if p.1 ∈ s.glyphset then addOutputGlyph s p.2 else s) s).incoming := by
  induction pairs with
  | nil => intro s p hp; simp at hp
  | cons a rest ih =>
      intro s p hp hin
      simp only [List.foldl_cons]
      rcases List.mem_cons.mp hp with rfl | hp
      · rw [if_pos hin]
        constructor
        · exact foldl_glyphset_mono _
            (fun s q => by split
                           · exact addOutputGlyph_glyphset_mono s q.2
                           · exact subset_rfl) rest (addOutputGlyph s p.2)
            (by simp [addOutputGlyph])
        · have base : p.2 ∈ (addOutputGlyph s p.2).incoming := addIncoming_self _ _
          clear hin hp ih
          generalize addOutputGlyph s p.2 = t at base ⊢
          induction rest generalizing t with
          | nil => simpa using base
          | cons b rb ihb =>
              simp only [List.foldl_cons]
              apply ihb
              dsimp only
              split
              · exact addOutputGlyph_incoming_mono t b.2 p.2 base
              · exact base
      · by_cases ha : a.1 ∈ s.glyphset
        · rw [if_pos ha]
          exact ih (addOutputGlyph s a.2) p hp (addOutputGlyph_glyphset_mono s a.2 hin)
        · rw [if_neg ha]
          exact ih s p hp hin

/-- Anything new in the glyph set after the single-substitution fold is
the output of some pair whose input is in the resulting glyph set. -/
theorem singleSubstFold_only (pairs : List (Glyph × Glyph)) :
    ∀ (s : CloState) (x : Glyph),
      x ∈ (pairs.foldl
        (fun s p => if p.1 ∈ s.glyphset then addOutputGlyph s p.2 else s) s).glyphset →
      x ∈ s.glyphset ∨ ∃ p ∈ pairs, p.2 = x ∧ p.1 ∈ (pairs.foldl
        (fun s p => if p.1 ∈ s.glyphset then addOutputGlyph s p.2 else s) s).glyphset := by
  induction pairs with
  | nil => intro s x hx; exact Or.inl hx
  | cons a rest ih =>
      intro s x hx
      simp only [List.foldl_cons] at hx ⊢
      by_cases ha : a.1 ∈ s.glyphset
      · rw [if_pos ha] at hx ⊢
        rcases ih (addOutputGlyph s a.2) x hx with hx' | ⟨p, hp, hpx, hpin⟩
        · simp only [addOutputGlyph, Finset.mem_insert] at hx'
          rcases hx' with rfl | hx'
          · right
            refine ⟨a, List.mem_cons_self a rest, rfl, ?_⟩
            have : a.1 ∈ (addOutputGlyph s a.2).glyphset :=
              addOutputGlyph_glyphset_mono s a.2 ha
            exact foldl_glyphset_mono _
              (fun s q => by split
                             · exact addOutputGlyph_glyphset_mono s q.2
                             · exact subset_rfl) rest (addOutputGlyph s a.2) this
          · exact Or.inl hx'
        · exact Or.inr ⟨p, List.mem_cons_of_mem a hp, hpx, hpin⟩
      · rw [if_neg ha] at hx ⊢
        rcases ih s x hx with hx' | ⟨p, hp, hpx, hpin⟩
        · exact Or.inl hx'
        · exact Or.inr ⟨p, List.mem_cons_of_mem a hp, hpx, hpin⟩

/-- If every pair writes the same output glyph, that glyph ends up in
the glyph set only when it was there already or some pair's input was
in the *initial* glyph set. -/
theorem singleSubstFold_broadcast (o : Glyph) :
    ∀ (pairs : List (Glyph × Glyph)) (s : CloState), (∀ p ∈ pairs, p.2 = o) →
      o ∈ (pairs.foldl
        (fun s p => if p.1 ∈ s.glyphset then addOutputGlyph s p.2 else s) s).glyphset →
      o ∈ s.glyphset ∨ ∃ p ∈ pairs, p.1 ∈ s.glyphset := by
  intro pairs
  induction pairs with
  | nil => intro s _ hx; exact Or.inl hx
  | cons a rest ih =>
      intro s hall hx
      simp only [List.foldl_cons] at hx
      by_cases ha : a.1 ∈ s.glyphset
      · exact Or.inr ⟨a, List.mem_cons_self a rest, ha⟩
      · rw [if_neg ha] at hx
        rcases ih s (fun p hp => hall p (List.mem_cons_of_mem a hp)) hx with h | ⟨p, hp, hpi⟩
        · exact Or.inl h
        · exact Or.inr ⟨p, List.mem_cons_of_mem a hp, hpi⟩

theorem foldl_incoming_mono {α : Type _} (f : CloState → α → CloState)
    (hf : ∀ s a, ∀ x ∈ s.incoming, x ∈ (f s a).incoming) :
    ∀ (l : List α) (s : CloState), ∀ x ∈ s.incoming, x ∈ (l.foldl f s).incoming := by
  intro l
  induction l with
  | nil => intro s x hx; exact hx
  | cons a rest ih =>
      intro s x hx
      simp only [List.foldl_cons]
      exact ih (f s a) x (hf s a x hx)

/-- All outputs of every slot are added by the multiple-substitution
output fold. -/
theorem multiFold_adds (slots : List GlyphContainer) :
    ∀ (s : CloState) (slot : GlyphContainer), slot ∈ slots → ∀ g ∈ slot.glyphSet,
      g ∈ (slots.foldl (fun s slot => addOutputGlyphs s slot.glyphSet) s).glyphset ∧
      g ∈ (slots.foldl (fun s slot => addOutputGlyphs s slot.glyphSet) s).incoming := by
  induction slots with
  | nil => intro s slot h; simp at h
  | cons a rest ih =>
      intro s slot hslot g hg
      simp only [List.foldl_cons]
      rcases List.mem_cons.mp hslot with rfl | hslot
      · constructor
        · exact foldl_glyphset_mono _
            (fun s q => addOutputGlyphs_glyphset_mono s q.glyphSet) rest
            (addOutputGlyphs s slot.glyphSet)
            (((addOutputGlyphs_mem slot.glyphSet s).2 g hg).1)
        · exact foldl_incoming_mono _
            (fun s q x hx => (addOutputGlyphs_mem q.glyphSet s).1 x hx) rest
            (addOutputGlyphs s slot.glyphSet) g
            (((addOutputGlyphs_mem slot.glyphSet s).2 g hg).2)
      · exact ih (addOutputGlyphs s a.glyphSet) slot hslot g hg

theorem flatten_replicate_singleton {α : Type _} (o : α) :
    ∀ n : Nat, (List.replicate n [o]).flatten = List.replicate n o := by
  intro n
  induction n with
  | zero => rfl
  | succ n ih => simp [List.replicate_succ, ih]

theorem zip_replicate_eq_map {α β : Type _} (o : β) :
    ∀ l : List α, l.zip (List.replicate l.length o) = l.map (fun i => (i, o)) := by
  intro l
  induction l with
  | nil => rfl
  | cons a rest ih => simp [List.replicate_succ, ih]

/-- C5: during layout closure, a single-substitution rule whose prefix
and suffix are live pairs input and output glyphs positionally
(broadcasting the single output glyph across all inputs when the output
list has exactly one element) and adds an output glyph to the incoming
selection and the glyph set only when its corresponding input glyph is
already in the glyph set; a rule with a dead context changes nothing. -/
theorem closure_single_subst_spec (pre suf : List GlyphContainer)
    (glyphs0 replacements0 : GlyphContainer) (s : CloState) :
    ((hasAnyEmptySlots (filterSequence s.glyphset s.refs pre).1 = true ∨
      hasAnyEmptySlots
        (filterSequence s.glyphset (filterSequence s.glyphset s.refs pre).2 suf).1 = true) →
      (closeSubstStatement (.singleSubst pre suf glyphs0 replacements0) s).incoming
          = s.incoming ∧
      (closeSubstStatement (.singleSubst pre suf glyphs0 replacements0) s).glyphset
          = s.glyphset) ∧
    (hasAnyEmptySlots (filterSequence s.glyphset s.refs pre).1 = false →
     hasAnyEmptySlots
        (filterSequence s.glyphset (filterSequence s.glyphset s.refs pre).2 suf).1 = false →
      (∀ p ∈ glyphs0.glyphSet.zip
          (broadcastReplacements glyphs0.glyphSet replacements0.glyphSet),
        p.1 ∈ s.glyphset →
          p.2 ∈ (closeSubstStatement (.singleSubst pre suf glyphs0 replacements0) s).glyphset ∧
          p.2 ∈ (closeSubstStatement (.singleSubst pre suf glyphs0 replacements0) s).incoming) ∧
      (∀ x ∈ (closeSubstStatement (.singleSubst pre suf glyphs0 replacements0) s).glyphset,
        x ∉ s.glyphset →
          ∃ p ∈ glyphs0.glyphSet.zip
              (broadcastReplacements glyphs0.glyphSet replacements0.glyphSet),
            p.2 = x ∧
            p.1 ∈ (closeSubstStatement (.singleSubst pre suf glyphs0 replacements0) s).glyphset) ∧
      (∀ o : Glyph, replacements0.glyphSet = [o] →
        (o ∈ (closeSubstStatement (.singleSubst pre suf glyphs0 replacements0) s).glyphset ↔
          o ∈ s.glyphset ∨ ∃ i ∈ glyphs0.glyphSet, i ∈ s.glyphset))) := by
  constructor
  · intro hdead
    simp only [closeSubstStatement]
    by_cases h1 : hasAnyEmptySlots (filterSequence s.glyphset s.refs pre).1 = true
    · rw [if_pos h1]
      exact ⟨rfl, rfl⟩
    · rw [if_neg h1]
      rcases hdead with hd | hd
      · exact absurd hd h1
      · rw [if_pos hd]
        exact ⟨rfl, rfl⟩
  · intro hp hs
    simp only [closeSubstStatement]
    rw [if_neg (by simp [hp]), if_neg (by simp [hs])]
    refine ⟨?_, ?_, ?_⟩
    · intro p hmem hin
      exact singleSubstFold_adds _ _ p hmem hin
    · intro x hx hnot
      rcases singleSubstFold_only _ _ x hx with h | ⟨p, hmem, hpx, hpin⟩
      · exact absurd h hnot
      · exact ⟨p, hmem, hpx, hpin⟩
    · intro o hrep
      rw [hrep]
      have hb : broadcastReplacements glyphs0.glyphSet [o]
          = List.replicate glyphs0.glyphSet.length o := by
        simp [broadcastReplacements, flatten_replicate_singleton]
      rw [hb, zip_replicate_eq_map]
      constructor
      · intro hx
        rcases singleSubstFold_broadcast o _ _
            (fun p hp => by
              obtain ⟨i, _, rfl⟩ := List.mem_map.mp hp
              rfl) hx with h | ⟨p, hp, hpi⟩
        · exact Or.inl h
        · obtain ⟨i, hi, rfl⟩ := List.mem_map.mp hp
          exact Or.inr ⟨i, hi, hpi⟩
      · intro hx
        rcases hx with hx | ⟨i, hi, hin⟩
        · exact foldl_glyphset_mono _
            (fun s q => by split
                           · exact addOutputGlyph_glyphset_mono s q.2
                           · exact subset_rfl) _ _ hx
        · exact (singleSubstFold_adds _
            ⟨s.incoming, s.glyphset,
              (filterSequence s.glyphset (filterSequence s.glyphset s.refs pre).2 suf).2⟩ (i, o)
            (List.mem_map_of_mem (fun i => (i, o)) hi) hin).1

/-- Witness for C5 at a concrete rule: `sub [A X] by [B Y]` with glyph
set `{A}` adds `B` (the output paired with the live input `A`) to both
the glyph set and the incoming selection. -/
theorem closure_single_subst_spec_witness :
    "B" ∈ (closeSubstStatement
        (.singleSubst [] [] (.glyphClass ["A", "X"]) (.glyphClass ["B", "Y"]))
        ⟨["A"], {"A"}, []⟩).glyphset ∧
    "B" ∈ (closeSubstStatement
        (.singleSubst [] [] (.glyphClass ["A", "X"]) (.glyphClass ["B", "Y"]))
        ⟨["A"], {"A"}, []⟩).incoming :=
  ((closure_single_subst_spec [] [] (.glyphClass ["A", "X"]) (.glyphClass ["B", "Y"])
      ⟨["A"], {"A"}, []⟩).2 rfl rfl).1 ("A", "B") (by decide) (by decide)

/-- C6: during layout closure, an alternate-, multiple- or
ligature-substitution rule whose context is live and whose (filtered)
input is non-empty adds every output glyph of every output slot to the
incoming selection and the glyph set, regardless of which specific
input glyph matched. -/
theorem closure_class_rules_add_all_outputs (s : CloState) :
    (∀ (pre suf : List GlyphContainer) (glyph replacement : GlyphContainer),
      hasAnyEmptySlots (filterSequence s.glyphset s.refs pre).1 = false →
      hasAnyEmptySlots
        (filterSequence s.glyphset (filterSequence s.glyphset s.refs pre).2 suf).1 = false →
      (filterGlyphs s.glyphset glyph.glyphSet).isEmpty = false →
      ∀ g ∈ replacement.glyphSet,
        g ∈ (closeSubstStatement (.alternateSubst pre glyph suf replacement) s).glyphset ∧
        g ∈ (closeSubstStatement (.alternateSubst pre glyph suf replacement) s).incoming) ∧
    (∀ (pre suf : List GlyphContainer) (glyph : GlyphContainer)
        (replacement : List GlyphContainer),
      hasAnyEmptySlots (filterSequence s.glyphset s.refs pre).1 = false →
      hasAnyEmptySlots
        (filterSequence s.glyphset (filterSequence s.glyphset s.refs pre).2 suf).1 = false →
      (filterGlyphs s.glyphset glyph.glyphSet).isEmpty = false →
      ∀ slot ∈ replacement, ∀ g ∈ slot.glyphSet,
        g ∈ (closeSubstStatement (.multipleSubst pre glyph suf replacement) s).glyphset ∧
        g ∈ (closeSubstStatement (.multipleSubst pre glyph suf replacement) s).incoming) ∧
    (∀ (pre suf glyphs : List GlyphContainer) (replacement : GlyphContainer),
      hasAnyEmptySlots (filterSequence s.glyphset s.refs pre).1 = false →
      hasAnyEmptySlots
        (filterSequence s.glyphset (filterSequence s.glyphset s.refs pre).2 suf).1 = false →
      hasAnyEmptySlots
        (filterSequence s.glyphset
          (filterSequence s.glyphset (filterSequence s.glyphset s.refs pre).2 suf).2
          glyphs).1 = false →
      ∀ g ∈ replacement.glyphSet,
        g ∈ (closeSubstStatement (.ligatureSubst pre glyphs suf replacement) s).glyphset ∧
        g ∈ (closeSubstStatement (.ligatureSubst pre glyphs suf replacement) s).incoming) := by
  refine ⟨?_, ?_, ?_⟩
  · intro pre suf glyph replacement hp hs hin g hg
    simp only [closeSubstStatement]
    rw [if_neg (by simp [hp]), if_neg (by simp [hs]), if_neg (by simp [hin])]
    exact (addOutputGlyphs_mem replacement.glyphSet _).2 g hg
  · intro pre suf glyph replacement hp hs hin slot hslot g hg
    simp only [closeSubstStatement]
    rw [if_neg (by simp [hp]), if_neg (by simp [hs]), if_neg (by simp [hin])]
    exact multiFold_adds replacement _ slot hslot g hg
  · intro pre suf glyphs replacement hp hs hg' g hg
    simp only [closeSubstStatement]
    rw [if_neg (by simp [hp]), if_neg (by simp [hs]), if_neg (by simp [hg'])]
    exact (addOutputGlyphs_mem replacement.glyphSet _).2 g hg

/-- Witness for C6: a live ligature rule `sub A B by C` over glyph set
`{A, B}` adds `C`; a live multiple-substitution rule `sub A by D E`
adds both outputs. -/
theorem closure_class_rules_add_all_outputs_witness :
    ("C" ∈ (closeSubstStatement
        (.ligatureSubst [] [.glyphName "A", .glyphName "B"] [] (.glyphName "C"))
        ⟨["A", "B"], {"A", "B"}, []⟩).glyphset ∧
     "C" ∈ (closeSubstStatement
        (.ligatureSubst [] [.glyphName "A", .glyphName "B"] [] (.glyphName "C"))
        ⟨["A", "B"], {"A", "B"}, []⟩).incoming) ∧
    ("E" ∈ (closeSubstStatement
        (.multipleSubst [] (.glyphName "A") [] [.glyphName "D", .glyphName "E"])
        ⟨["A"], {"A"}, []⟩).glyphset ∧
     "E" ∈ (closeSubstStatement
        (.multipleSubst [] (.glyphName "A") [] [.glyphName "D", .glyphName "E"])
        ⟨["A"], {"A"}, []⟩).incoming) :=
  ⟨(closure_class_rules_add_all_outputs ⟨["A", "B"], {"A", "B"}, []⟩).2.2
      [] [] [.glyphName "A", .glyphName "B"] (.glyphName "C") rfl rfl (by decide)
      "C" (by decide),
   (closure_class_rules_add_all_outputs ⟨["A"], {"A"}, []⟩).2.1
      [] [] (.glyphName "A") [.glyphName "D", .glyphName "E"] rfl rfl (by decide)
      (.glyphName "E") (by decide) "E" (by decide)⟩

/-! ## Kerning-merge lemmas (claim C7) -/

theorem cleanDestGroups_mem (incoming : List Glyph) :
    ∀ (l : List (String × List Glyph)) (p : String × List Glyph), p ∈ l →
      ((p.2.filter (fun m => m ∉ incoming)) ≠ [] →
        (p.1, p.2.filter (fun m => m ∉ incoming)) ∈ (cleanDestGroups incoming l).1) ∧
      ((p.2.filter (fun m => m ∉ incoming)) = [] →
        p.1 ∈ (cleanDestGroups incoming l).2) := by
  intro l
  induction l with
  | nil => intro p hp; simp at hp
  | cons a rest ih =>
      intro p hp
      rcases List.mem_cons.mp hp with rfl | hmem
      · obtain ⟨n, ms⟩ := p
        constructor
        · intro hne
          simp only [cleanDestGroups]
          rw [if_neg (by simpa using hne)]
          exact List.mem_cons_self _ _
        · intro he
          simp only [cleanDestGroups]
          rw [if_pos (by simpa using he)]
          exact List.mem_cons_self _ _
      · obtain ⟨n, ms⟩ := a
        constructor
        · intro hne
          simp only [cleanDestGroups]
          split
          · exact ((ih p hmem).1 hne)
          · exact List.mem_cons_of_mem _ ((ih p hmem).1 hne)
        · intro he
          simp only [cleanDestGroups]
          split
          · exact List.mem_cons_of_mem _ ((ih p hmem).2 he)
          · exact ((ih p hmem).2 he)

theorem cleanDestKerning_mem (cleaned : List String)
    (kerning : List ((String × String) × Int)) (q : (String × String) × Int) :
    q ∈ cleanDestKerning cleaned kerning ↔
      q ∈ kerning ∧ q.1.1 ∉ cleaned ∧ q.1.2 ∉ cleaned := by
  simp [cleanDestKerning, List.mem_filter, and_assoc]

theorem find?_eq_none_of_any_false (key : String × String)
    (k : List ((String × String) × Int)) (h : k.any (fun p => p.1 = key) = false) :
    k.find? (fun p => p.1 = key) = none := by
  rw [List.find?_eq_none]
  intro p hp
  simp only [List.any_eq_false, decide_eq_true_eq] at h
  simpa using h p hp

theorem find?_map_update_self (key : String × String) (v : Int) :
    ∀ k : List ((String × String) × Int), k.any (fun p => p.1 = key) = true →
      (k.map (fun p => if p.1 = key then (key, v) else p)).find? (fun p => p.1 = key)
        = some (key, v) := by
  intro k
  induction k with
  | nil => intro h; simp at h
  | cons a rest ih =>
      intro hany
      by_cases ha : a.1 = key
      · simp [if_pos ha, List.find?]
      · rw [List.map_cons, if_neg ha, List.find?_cons_of_neg _ (by simpa using ha)]
        apply ih
        simp only [List.any_cons, Bool.or_eq_true] at hany
        rcases hany with h | h
        · exact absurd (by simpa using h) ha
        · exact h

theorem find?_map_update_other (key key' : String × String) (v : Int) (hne : key' ≠ key) :
    ∀ k : List ((String × String) × Int),
      (k.map (fun p => if p.1 = key' then (key', v) else p)).find? (fun p => p.1 = key)
        = k.find? (fun p => p.1 = key) := by
  intro k
  induction k with
  | nil => simp
  | cons a rest ih =>
      by_cases ha : a.1 = key'
      · rw [List.map_cons, if_pos ha,
          List.find?_cons_of_neg _ (by simpa using hne),
          List.find?_cons_of_neg _ (by simp [ha, hne])]
        exact ih
      · rw [List.map_cons, if_neg ha]
        by_cases hk : a.1 = key
        · rw [List.find?_cons_of_pos _ (by simpa using hk),
            List.find?_cons_of_pos _ (by simpa using hk)]
        · rw [List.find?_cons_of_neg _ (by simpa using hk),
            List.find?_cons_of_neg _ (by simpa using hk)]
          exact ih

theorem kerningInsert_find (k : List ((String × String) × Int)) (key : String × String)
    (v : Int) : (kerningInsert k key v).find? (fun p => p.1 = key) = some (key, v) := by
  simp only [kerningInsert]
  split
  · rename_i hany
    exact find?_map_update_self key v k (by simpa using hany)
  · rename_i hany
    have hnone : k.find? (fun p => p.1 = key) = none :=
      find?_eq_none_of_any_false key k (by simpa only [Bool.not_eq_true] using hany)
    rw [List.find?_append, hnone]
    simp [List.find?]

theorem kerningInsert_find_other (k : List ((String × String) × Int))
    (key key' : String × String) (v : Int) (hne : key' ≠ key) :
    (kerningInsert k key' v).find? (fun p => p.1 = key)
      = k.find? (fun p => p.1 = key) := by
  simp only [kerningInsert]
  split
  · exact find?_map_update_other key key' v hne k
  · rw [List.find?_append]
    cases hf : k.find? (fun p => p.1 = key) with
    | some p => rfl
    | none => simp [List.find?, hne]

theorem kerningInsert_keys_mem (k : List ((String × String) × Int))
    (key key' : String × String) (v : Int)
    (h : key ∈ (kerningInsert k key' v).map (fun q => q.1)) :
    key ∈ k.map (fun q => q.1) ∨ key = key' := by
  simp only [kerningInsert] at h
  split at h
  · obtain ⟨q, hq, hkey⟩ := List.mem_map.mp h
    obtain ⟨p, hp, rfl⟩ := List.mem_map.mp hq
    by_cases hpk : p.1 = key'
    · simp only [if_pos hpk] at hkey
      exact Or.inr hkey.symm
    · simp only [if_neg hpk] at hkey
      exact Or.inl (List.mem_map.mpr ⟨p, hp, hkey⟩)
  · simp only [List.map_append, List.mem_append] at h
    rcases h with h | h
    · exact Or.inl h
    · simp at h
      exact Or.inr h


/-- Characterize a successful copy step: either the pair was skipped
(some side resolves empty) and the accumulator is unchanged, or it was
copied and the accumulated kerning gained the pair. -/
theorem copyDonorKerningStep_ok (gset : GlyphSet) (groups2 : List (String × List Glyph))
    (acc acc' : List (String × List Glyph) × List ((String × String) × Int))
    (q : (String × String) × Int)
    (h : copyDonorKerningStep gset groups2 acc q = .ok acc') :
    (((resolveSide gset groups2 q.1.1).isEmpty ||
        (resolveSide gset groups2 q.1.2).isEmpty) = true ∧ acc' = acc) ∨
    (((resolveSide gset groups2 q.1.1).isEmpty ||
        (resolveSide gset groups2 q.1.2).isEmpty) = false ∧
      acc'.2 = kerningInsert acc.2 q.1 q.2) := by
  rw [copyDonorKerningStep] at h
  split at h
  · rename_i hc
    left
    refine ⟨hc, ?_⟩
    cases h
    rfl
  · rename_i hc
    right
    refine ⟨by simpa using hc, ?_⟩
    split at h
    · cases h
    · split at h
      · cases h
      · cases h
        rfl

theorem copyDonorKerning_find_preserved (gset : GlyphSet)
    (groups2 : List (String × List Glyph)) :
    ∀ (k2 : List ((String × String) × Int))
      (acc : List (String × List Glyph) × List ((String × String) × Int))
      (out : List (String × List Glyph) × List ((String × String) × Int)),
      k2.foldlM (copyDonorKerningStep gset groups2) acc = .ok out →
      ∀ key : String × String, key ∉ k2.map (fun q => q.1) →
        out.2.find? (fun p => p.1 = key) = acc.2.find? (fun p => p.1 = key) := by
  intro k2
  induction k2 with
  | nil =>
      intro acc out h key _
      simp only [List.foldlM_nil] at h
      cases h
      rfl
  | cons q rest ih =>
      intro acc out h key hkey
      simp only [List.foldlM_cons] at h
      cases hstep : copyDonorKerningStep gset groups2 acc q with
      | error e => rw [hstep] at h; cases h
      | ok acc1 =>
          rw [hstep] at h
          replace h : rest.foldlM (copyDonorKerningStep gset groups2) acc1 = .ok out := h
          have hkr : key ∉ rest.map (fun p => p.1) := fun hc => hkey (by simp [hc])
          have hne : q.1 ≠ key := fun hc => hkey (by simp [← hc])
          rw [ih acc1 out h key hkr]
          rcases copyDonorKerningStep_ok gset groups2 acc acc1 q hstep with ⟨_, rfl⟩ | ⟨_, h2⟩
          · rfl
          · rw [h2]
            exact kerningInsert_find_other acc.2 key q.1 q.2 hne

theorem copyDonorKerning_find (gset : GlyphSet) (groups2 : List (String × List Glyph)) :
    ∀ (k2 : List ((String × String) × Int))
      (acc out : List (String × List Glyph) × List ((String × String) × Int)),
      k2.foldlM (copyDonorKerningStep gset groups2) acc = .ok out →
      (k2.map (fun q => q.1)).Nodup →
      ∀ (key : String × String) (v : Int), (key, v) ∈ k2 →
        resolveSide gset groups2 key.1 ≠ [] → resolveSide gset groups2 key.2 ≠ [] →
        out.2.find? (fun p => p.1 = key) = some (key, v) := by
  intro k2
  induction k2 with
  | nil => intro acc out h hnd key v hmem; simp at hmem
  | cons q rest ih =>
      intro acc out h hnd key v hmem hr1 hr2
      simp only [List.map_cons, List.nodup_cons] at hnd
      simp only [List.foldlM_cons] at h
      cases hstep : copyDonorKerningStep gset groups2 acc q with
      | error e => rw [hstep] at h; cases h
      | ok acc1 =>
          rw [hstep] at h
          replace h : rest.foldlM (copyDonorKerningStep gset groups2) acc1 = .ok out := h
          rcases List.mem_cons.mp hmem with heq | hmem
          · have hq : q = (key, v) := heq.symm
            subst hq
            rcases copyDonorKerningStep_ok gset groups2 acc acc1 (key, v) hstep with
              ⟨hc, _⟩ | ⟨_, h2⟩
            · simp only [Bool.or_eq_true, List.isEmpty_iff] at hc
              rcases hc with hc | hc
              · exact absurd hc hr1
              · exact absurd hc hr2
            · rw [copyDonorKerning_find_preserved gset groups2 rest acc1 out h key hnd.1]
              rw [h2]
              exact kerningInsert_find acc.2 key v
          · exact ih acc1 out h hnd.2 key v hmem hr1 hr2

theorem copyDonorKerning_not_mem (gset : GlyphSet) (groups2 : List (String × List Glyph)) :
    ∀ (k2 : List ((String × String) × Int))
      (acc out : List (String × List Glyph) × List ((String × String) × Int)),
      k2.foldlM (copyDonorKerningStep gset groups2) acc = .ok out →
      ∀ key : String × String, key ∉ acc.2.map (fun q => q.1) →
        (∀ v : Int, (key, v) ∈ k2 →
          resolveSide gset groups2 key.1 = [] ∨ resolveSide gset groups2 key.2 = []) →
        key ∉ out.2.map (fun q => q.1) := by
  intro k2
  induction k2 with
  | nil =>
      intro acc out h key hacc _
      simp only [List.foldlM_nil] at h
      cases h
      exact hacc
  | cons q rest ih =>
      intro acc out h key hacc hdead
      simp only [List.foldlM_cons] at h
      cases hstep : copyDonorKerningStep gset groups2 acc q with
      | error e => rw [hstep] at h; cases h
      | ok acc1 =>
          rw [hstep] at h
          replace h : rest.foldlM (copyDonorKerningStep gset groups2) acc1 = .ok out := h
          rcases copyDonorKerningStep_ok gset groups2 acc acc1 q hstep with ⟨_, rfl⟩ | ⟨hc, h2⟩
          · exact ih acc1 out h key hacc
              (fun v hv => hdead v (List.mem_cons_of_mem _ hv))
          · have hkq : key ≠ q.1 := by
              intro hk
              rcases hdead q.2 (by rw [hk]; exact List.mem_cons_self _ _) with hd | hd
              · rw [hk] at hd
                simp only [Bool.or_eq_false_iff, List.isEmpty_eq_false] at hc
                exact hc.1 hd
              · rw [hk] at hd
                simp only [Bool.or_eq_false_iff, List.isEmpty_eq_false] at hc
                exact hc.2 hd
            refine ih acc1 out h key ?_ (fun v hv => hdead v (List.mem_cons_of_mem _ hv))
            rw [h2]
            intro hmem
            rcases kerningInsert_keys_mem acc.2 key q.1 q.2 hmem with hc' | hc'
            · exact hacc hc'
            · exact hkq hc'

/-- Counterexample to C7 as stated: with `C` selected, the destination
group `public.kern1.g = [A, C]` references the selected glyph `C`, and
the destination pair `(X, C)` references it too, yet neither is
"dropped outright": the group survives with `C` removed and the pair
survives untouched. -/
theorem merge_kerning_not_dropped_outright_counterexample :
    mergeKerning ({"A", "C", "X"} : Finset String) ["C"]
        [("public.kern1.g", ["A", "C"])] [(("X", "C"), 5)] [] []
      = .ok ⟨[("public.kern1.g", ["A"])], [(("X", "C"), 5)], []⟩ := by
  rfl

/-- C7 (amended): during the kerning merge the destination is cleaned,
not dropped outright: each destination group keeps its members that are
not part of the incoming selection and is deleted only when that leaves
it empty, and a destination pair is dropped exactly when one of its
side names is a deleted group; donor groups are slimmed to the final
glyph set; a donor pair is copied (and overrides any surviving
destination pair with the same key) when both sides, resolved through
the slimmed donor groups and defaulting to the literal name, retain at
least one glyph, a pair key never occurring in the donor kerning keeps
its cleaned destination binding, and a pair key absent from the cleaned
destination kerning whose donor occurrences all have a dead side is
absent from the result. -/
theorem merge_kerning_cleans_dest_and_copies_live_pairs
    (gset : GlyphSet) (incoming : List Glyph)
    (groups1 : List (String × List Glyph)) (kerning1 : List ((String × String) × Int))
    (groups2 : List (String × List Glyph)) (kerning2 : List ((String × String) × Int))
    (r : KerningMergeResult)
    (h : mergeKerning gset incoming groups1 kerning1 groups2 kerning2 = .ok r)
    (hnd : (kerning2.map (fun q => q.1)).Nodup) :
    r.groups2 = slimDonorGroups gset groups2 ∧
    (∀ p : String × List Glyph, p ∈ groups1 →
      ((p.2.filter (fun m => m ∉ incoming)) ≠ [] →
        (p.1, p.2.filter (fun m => m ∉ incoming)) ∈ (cleanDestGroups incoming groups1).1) ∧
      ((p.2.filter (fun m => m ∉ incoming)) = [] →
        p.1 ∈ (cleanDestGroups incoming groups1).2)) ∧
    (∀ q : (String × String) × Int,
      q ∈ cleanDestKerning (cleanDestGroups incoming groups1).2 kerning1 ↔
        q ∈ kerning1 ∧ q.1.1 ∉ (cleanDestGroups incoming groups1).2 ∧
          q.1.2 ∉ (cleanDestGroups incoming groups1).2) ∧
    (∀ (key : String × String) (v : Int), (key, v) ∈ kerning2 →
      resolveSide gset (slimDonorGroups gset groups2) key.1 ≠ [] →
      resolveSide gset (slimDonorGroups gset groups2) key.2 ≠ [] →
      r.kerning1.find? (fun p => p.1 = key) = some (key, v)) ∧
    (∀ key : String × String, key ∉ kerning2.map (fun q => q.1) →
      r.kerning1.find? (fun p => p.1 = key) =
        (cleanDestKerning (cleanDestGroups incoming groups1).2 kerning1).find?
          (fun p => p.1 = key)) ∧
    (∀ key : String × String,
      key ∉ (cleanDestKerning (cleanDestGroups incoming groups1).2 kerning1).map
          (fun q => q.1) →
      (∀ v : Int, (key, v) ∈ kerning2 →
        resolveSide gset (slimDonorGroups gset groups2) key.1 = [] ∨
        resolveSide gset (slimDonorGroups gset groups2) key.2 = []) →
      key ∉ r.kerning1.map (fun q => q.1)) := by
  unfold mergeKerning at h
  simp only [] at h
  cases hc : copyDonorKerning gset (slimDonorGroups gset groups2) kerning2
      (cleanDestGroups incoming groups1).1
      (cleanDestKerning (cleanDestGroups incoming groups1).2 kerning1) with
  | error e => rw [hc] at h; cases h
  | ok rr =>
      rw [hc] at h
      cases h
      replace hc : kerning2.foldlM (copyDonorKerningStep gset (slimDonorGroups gset groups2))
          ((cleanDestGroups incoming groups1).1,
            cleanDestKerning (cleanDestGroups incoming groups1).2 kerning1) = .ok rr := hc
      refine ⟨rfl, ?_, ?_, ?_, ?_, ?_⟩
      · exact fun p hp => cleanDestGroups_mem incoming groups1 p hp
      · exact fun q => cleanDestKerning_mem _ _ q
      · intro key v hmem hr1 hr2
        exact copyDonorKerning_find gset (slimDonorGroups gset groups2) kerning2 _ rr hc
          hnd key v hmem hr1 hr2
      · intro key hkey
        exact copyDonorKerning_find_preserved gset (slimDonorGroups gset groups2) kerning2
          _ rr hc key hkey
      · intro key hacc hdead
        exact copyDonorKerning_not_mem gset (slimDonorGroups gset groups2) kerning2
          _ rr hc key hacc hdead

/-- Witness for C7: a concrete merge where the destination group loses
its selected member, the destination pair survives, and the live donor
pair `(X, public.kern2.h)` is copied with its group membership. -/
theorem merge_kerning_cleans_dest_and_copies_live_pairs_witness :
    mergeKerning ({"A", "C", "X"} : Finset String) ["C"]
        [("public.kern1.g", ["A", "C"])] [(("X", "C"), 5)]
        [("public.kern2.h", ["C", "D"])] [(("X", "public.kern2.h"), 7)]
      = .ok ⟨[("public.kern1.g", ["A"]), ("public.kern2.h", ["C"])],
             [(("X", "C"), 5), (("X", "public.kern2.h"), 7)],
             [("public.kern2.h", ["C"])]⟩ ∧
    ([(("X", "public.kern2.h"), 7)].map
        (fun q : (String × String) × Int => q.1)).Nodup ∧
    (KerningMergeResult.mk [("public.kern1.g", ["A"]), ("public.kern2.h", ["C"])]
        [(("X", "C"), 5), (("X", "public.kern2.h"), 7)]
        [("public.kern2.h", ["C"])]).kerning1.find?
      (fun p => p.1 = ("X", "public.kern2.h")) = some ((("X", "public.kern2.h")), 7) :=
  ⟨by rfl, by decide,
    (merge_kerning_cleans_dest_and_copies_live_pairs
      ({"A", "C", "X"} : Finset String) ["C"]
      [("public.kern1.g", ["A", "C"])] [(("X", "C"), 5)]
      [("public.kern2.h", ["C", "D"])] [(("X", "public.kern2.h"), 7)]
      ⟨[("public.kern1.g", ["A"]), ("public.kern2.h", ["C"])],
       [(("X", "C"), 5), (("X", "public.kern2.h"), 7)],
       [("public.kern2.h", ["C"])]⟩
      (by rfl) (by decide)).2.2.2.1 ("X", "public.kern2.h") 7 (by decide)
        (by decide) (by decide)⟩

/-- Counterexample to C8 as stated: a merge invoked with the
unrecognized existing-handling value `"frobnicate"` does not fail — the
existing-handling mode is never validated and the merge completes. -/
theorem merge_ufos_bad_existing_handling_counterexample :
    exceptOk (merge_ufos
      ⟨[⟨"A", [65], []⟩], [], [], []⟩
      ⟨[⟨"B", [66], []⟩], [], [], []⟩
      ⟨["B"], [], [], "subset", "frobnicate"⟩) = true := by
  rfl

/-- C8 (amended): only the layout-handling mode is validated.  For
every merge invocation whose layout-handling value is not one of
`subset`, `closure`, `ignore`, the merge fails immediately with the
fatal configuration error, before any other work; an unrecognized
existing-handling value is silently accepted. -/
theorem merge_ufos_validates_layout_handling_only
    (ufo1 ufo2 : Font') (cfg : MergeConfig)
    (h : cfg.layout_handling ∉ (["subset", "closure", "ignore"] : List String)) :
    merge_ufos ufo1 ufo2 cfg
      = .error ("Unknown layout handling mode '" ++ cfg.layout_handling ++ "'") := by
  unfold merge_ufos
  rw [if_pos h]

/-- Witness for C8: the layout-handling value `bogus` is rejected with
the exact error message. -/
theorem merge_ufos_validates_layout_handling_only_witness :
    (("bogus" : String) ∉ (["subset", "closure", "ignore"] : List String)) ∧
    merge_ufos ⟨[], [], [], []⟩ ⟨[], [], [], []⟩ ⟨[], [], [], "bogus", "replace"⟩
      = .error ("Unknown layout handling mode '" ++ "bogus" ++ "'") :=
  ⟨by decide,
    merge_ufos_validates_layout_handling_only ⟨[], [], [], []⟩ ⟨[], [], [], []⟩
      ⟨[], [], [], "bogus", "replace"⟩ (by decide)⟩

theorem addIncoming_mem_iff (inc : List Glyph) (g x : Glyph) :
    x ∈ addIncoming inc g ↔ x ∈ inc ∨ x = g := by
  simp only [addIncoming]
  split
  · rename_i hmem
    constructor
    · exact Or.inl
    · rintro (h | rfl)
      · exact h
      · exact hmem
  · simp

theorem foldl_addIncoming_mem (x : Glyph) :
    ∀ (l acc : List Glyph), x ∈ l.foldl addIncoming acc ↔ x ∈ acc ∨ x ∈ l := by
  intro l
  induction l with
  | nil => simp
  | cons a rest ih =>
      intro acc
      rw [List.foldl_cons, ih, addIncoming_mem_iff]
      constructor
      · rintro ((h | rfl) | h)
        · exact Or.inl h
        · exact Or.inr (List.mem_cons_self _ _)
        · exact Or.inr (List.mem_cons_of_mem _ h)
      · rintro (h | h)
        · exact Or.inl (Or.inl h)
        · rcases List.mem_cons.mp h with rfl | h
          · exact Or.inl (Or.inr rfl)
          · exact Or.inr h

theorem dictFromKeys_mem (keys : List Glyph) (x : Glyph) :
    x ∈ dictFromKeys keys ↔ x ∈ keys := by
  rw [dictFromKeys, foldl_addIncoming_mem]
  simp

theorem applyExcludes_head_not_mem (g : Glyph) (rest incoming : List Glyph)
    (h : g ∉ incoming) :
    applyExcludes (g :: rest) incoming = .error ("KeyError: " ++ g) := by
  simp only [applyExcludes]
  rw [if_neg h]

/-- Counterexample to C9 as stated: excluding `Z`, which is not a glyph
of the donor font (or of the selection), is not recovered locally — the
unguarded `del` raises `KeyError` and the merge setup fails fatally. -/
theorem post_init_unknown_exclude_fatal_counterexample :
    postInit ⟨["A"], ["Z"], [], "subset", "replace"⟩
        ⟨[], [], [], []⟩ ⟨[⟨"A", [], []⟩], [], [], []⟩
      = .error ("KeyError: " ++ "Z") := by
  rfl

/-- C9 (amended): only requested glyph names are recovered locally —
when no excludes are given, `__post_init__` always succeeds and every
selected glyph names a donor glyph (unknown requested names are logged
and dropped); but an exclude-glyph name outside the selection (in
particular one naming no donor glyph) raises an unguarded `KeyError`,
failing the merge fatally. -/
theorem post_init_unknown_requested_dropped_unknown_exclude_fatal
    (cfg : MergeConfig) (ufo1 ufo2 : Font') :
    (cfg.exclude_glyphs = [] →
      ∃ s : MergerState, postInit cfg ufo1 ufo2 = .ok s ∧
        ∀ g ∈ s.incoming, g ∈ fontGlyphNames ufo2) ∧
    (∀ (g : Glyph) (rest : List Glyph),
      cfg.exclude_glyphs = g :: rest → cfg.codepoints = [] →
      cfg.glyphs.isEmpty = false → g ∉ cfg.glyphs →
      postInit cfg ufo1 ufo2 = .error ("KeyError: " ++ g)) := by
  constructor
  · intro hex
    unfold postInit
    rw [hex]
    refine ⟨_, rfl, ?_⟩
    intro g hg
    simpa using (List.mem_filter.mp hg).2
  · intro g rest hex hcp hne hnm
    have hg1 : g ∉ (dictFromKeys cfg.glyphs).filter
        (fun x => x ∉ (([] : List Glyph))) := by
      intro hmem
      exact hnm ((dictFromKeys_mem cfg.glyphs g).mp (List.mem_filter.mp hmem).1)
    unfold postInit
    rw [hex, hcp, hne]
    simp only [List.isEmpty_nil, Bool.false_and, Bool.false_eq_true, if_false, if_true,
      ite_true, ite_false]
    rw [applyExcludes_head_not_mem g rest _ hg1]

/-- Witness for C9: with no excludes the setup succeeds and drops the
unknown requested name `Q`; with the unknown exclude `Z` it fails with
`KeyError: Z`. -/
theorem post_init_unknown_requested_dropped_unknown_exclude_fatal_witness :
    ((["A", "Q"] : List Glyph).isEmpty = false ∧ ("Z" : Glyph) ∉ (["A", "Q"] : List Glyph)) ∧
    (∃ s : MergerState,
      postInit ⟨["A", "Q"], [], [], "subset", "replace"⟩
          ⟨[], [], [], []⟩ ⟨[⟨"A", [], []⟩], [], [], []⟩ = .ok s ∧
        ∀ g ∈ s.incoming, g ∈ fontGlyphNames ⟨[⟨"A", [], []⟩], [], [], []⟩) ∧
    postInit ⟨["A", "Q"], ["Z"], [], "subset", "replace"⟩
        ⟨[], [], [], []⟩ ⟨[⟨"A", [], []⟩], [], [], []⟩
      = .error ("KeyError: " ++ "Z") :=
  ⟨⟨by decide, by decide⟩,
    (post_init_unknown_requested_dropped_unknown_exclude_fatal
      ⟨["A", "Q"], [], [], "subset", "replace"⟩
      ⟨[], [], [], []⟩ ⟨[⟨"A", [], []⟩], [], [], []⟩).1 rfl,
    (post_init_unknown_requested_dropped_unknown_exclude_fatal
      ⟨["A", "Q"], ["Z"], [], "subset", "replace"⟩
      ⟨[], [], [], []⟩ ⟨[⟨"A", [], []⟩], [], [], []⟩).2 "Z" [] rfl rfl
      (by decide) (by decide)⟩

theorem mergeKerning_ok_groups2 (gset : GlyphSet) (incoming : List Glyph)
    (groups1 : List (String × List Glyph)) (kerning1 : List ((String × String) × Int))
    (groups2 : List (String × List Glyph)) (kerning2 : List ((String × String) × Int))
    (r : KerningMergeResult)
    (h : mergeKerning gset incoming groups1 kerning1 groups2 kerning2 = .ok r) :
    r.groups2 = slimDonorGroups gset groups2 := by
  unfold mergeKerning at h
  simp only [] at h
  split at h
  · cases h
  · cases h
    rfl


theorem mergeClosureStep_ok_frame (cfg : MergeConfig) (s s1 : MergerState)
    (h : mergeClosureStep cfg s = .ok s1) :
    s1.ufo2 = s.ufo2 ∧ s1.blacklisted = s.blacklisted ∧ s1.ufo1 = s.ufo1 := by
  unfold mergeClosureStep at h
  split at h
  · split at h
    · cases h
    · cases h
      exact ⟨rfl, rfl, rfl⟩
  · cases h
    exact ⟨rfl, rfl, rfl⟩

theorem mergeFilterStep_frame (cfg : MergeConfig) (s : MergerState) :
    (mergeFilterStep cfg s).ufo2 = s.ufo2 ∧
    (mergeFilterStep cfg s).blacklisted = s.blacklisted ∧
    (mergeFilterStep cfg s).ufo1 = s.ufo1 ∧
    (mergeFilterStep cfg s).incoming = s.incoming ∧
    (mergeFilterStep cfg s).final_glyphset = s.final_glyphset := by
  unfold mergeFilterStep
  split
  · exact ⟨rfl, rfl, rfl, rfl, rfl⟩
  · exact ⟨rfl, rfl, rfl, rfl, rfl⟩

theorem mergeComponentStep_ok_frame (cfg : MergeConfig) (s s1 : MergerState)
    (h : mergeComponentStep cfg s = .ok s1) :
    s1.ufo2 = s.ufo2 ∧ s1.blacklisted = s.blacklisted ∧ s1.ufo1 = s.ufo1 := by
  unfold mergeComponentStep at h
  split at h
  · cases h
  · cases h
    exact ⟨rfl, rfl, rfl⟩

theorem mergeBlacklistStep_spec (s : MergerState) :
    (mergeBlacklistStep s).ufo2.glyphs
      = s.ufo2.glyphs.map (fun (g : GlyphRecord) =>
          if g.name ∈ s.blacklisted ∧ g.name ∈ s.incoming then
            { g with unicodes := [] }
          else g) ∧
    (mergeBlacklistStep s).ufo2.groups = s.ufo2.groups ∧
    (mergeBlacklistStep s).blacklisted = s.blacklisted ∧
    (mergeBlacklistStep s).incoming = s.incoming ∧
    (mergeBlacklistStep s).final_glyphset = s.final_glyphset ∧
    (mergeBlacklistStep s).ufo1 = s.ufo1 :=
  ⟨rfl, rfl, rfl, rfl, rfl, rfl⟩

theorem mergeKerningStep_ok_spec (s s1 : MergerState)
    (h : mergeKerningStep s = .ok s1) :
    s1.ufo2.groups = slimDonorGroups s.final_glyphset s.ufo2.groups ∧
    s1.ufo2.glyphs = s.ufo2.glyphs ∧ s1.blacklisted = s.blacklisted ∧
    s1.incoming = s.incoming ∧ s1.final_glyphset = s.final_glyphset := by
  unfold mergeKerningStep at h
  split at h
  · cases h
  · rename_i km hkm
    cases h
    refine ⟨?_, rfl, rfl, rfl, rfl⟩
    exact mergeKerning_ok_groups2 _ _ _ _ _ _ km hkm

theorem mergeCopyStep_ok_frame (cfg : MergeConfig) (s s1 : MergerState)
    (h : mergeCopyStep cfg s = .ok s1) :
    s1.ufo2 = s.ufo2 ∧ s1.blacklisted = s.blacklisted ∧
    s1.incoming = s.incoming ∧ s1.final_glyphset = s.final_glyphset := by
  unfold mergeCopyStep at h
  split at h
  · cases h
  · cases h
    exact ⟨rfl, rfl, rfl, rfl⟩

/-- C10: merging mutates the donor font too — on a successful merge
with a non-empty selection, the donor's kerning groups are rewritten in
place to their restriction to the final glyph set (so every member of
every donor group is in the final glyph set), and every blacklisted
donor glyph that is in the final incoming selection has its Unicode
codepoint list cleared on the donor object. -/
theorem merge_mutates_donor (cfg : MergeConfig) (s s' : MergerState)
    (h : mergerMerge cfg s = .ok s')
    (hne : s.incoming.isEmpty = false) :
    s'.ufo2.groups = slimDonorGroups s'.final_glyphset s.ufo2.groups ∧
    (∀ p ∈ s'.ufo2.groups, ∀ g ∈ p.2, g ∈ s'.final_glyphset) ∧
    (∀ grec ∈ s'.ufo2.glyphs,
      grec.name ∈ s'.blacklisted → grec.name ∈ s'.incoming → grec.unicodes = []) := by
  unfold mergerMerge at h
  rw [hne] at h
  simp only [Bool.false_eq_true, if_false, ite_false] at h
  split at h
  · cases h
  · rename_i s1 hclo
    split at h
    · cases h
    · rename_i s3 hcomp
      split at h
      · cases h
      · rename_i s5 hkern
        obtain ⟨hc2, hcb, hc1⟩ := mergeClosureStep_ok_frame cfg s s1 hclo
        obtain ⟨hf2, hfb, hf1, hfi, hfg⟩ := mergeFilterStep_frame cfg s1
        obtain ⟨hm2, hmb, hm1⟩ := mergeComponentStep_ok_frame cfg (mergeFilterStep cfg s1) s3 hcomp
        obtain ⟨hbg, hbgr, hbb, hbi, hbf, hb1⟩ := mergeBlacklistStep_spec s3
        obtain ⟨hkg, hkgl, hkb, hki, hkf⟩ :=
          mergeKerningStep_ok_spec (mergeBlacklistStep s3) s5 hkern
        obtain ⟨hp2, hpb, hpi, hpf⟩ := mergeCopyStep_ok_frame cfg s5 s' h
        refine ⟨?_, ?_, ?_⟩
        · rw [hp2, hkg, hbgr, hm2, hf2, hc2, hpf, hkf]
        · intro p hp g hg
          rw [hp2, hkg, hbgr] at hp
          simp only [slimDonorGroups, List.mem_map] at hp
          obtain ⟨q, hq, rfl⟩ := hp
          rw [hpf, hkf, hbf]
          exact filterGlyphs_mem _ _ g hg
        · intro grec hmem hbl hinc
          rw [hp2, hkgl, hbg] at hmem
          rw [hpb, hkb, hbb] at hbl
          rw [hpi, hki, hbi] at hinc
          obtain ⟨orig, horig, heq⟩ := List.mem_map.mp hmem
          by_cases hcond : orig.name ∈ s3.blacklisted ∧ orig.name ∈ s3.incoming
          · rw [if_pos hcond] at heq
            subst heq
            rfl
          · rw [if_neg hcond] at heq
            subst heq
            exact absurd ⟨hbl, hinc⟩ hcond

/-- Witness for C10: merging donor glyph `B` (componentwise closing
over the blacklisted `A`) slims the donor kerning group in place and
clears the codepoints of the blacklisted, re-selected donor glyph
`A`. -/
theorem merge_mutates_donor_witness :
    mergerMerge ⟨["B"], [], [65], "subset", "skip"⟩
        ⟨⟨[⟨"X", [65], []⟩], [], [], []⟩,
         ⟨[⟨"A", [65], []⟩, ⟨"B", [], ["A"]⟩], [("public.kern2.g", ["A", "B", "D"])], [], []⟩,
         ["B"], ["A"], ({"X", "B"} : Finset String), [], []⟩
      = .ok ⟨⟨[⟨"X", [65], []⟩, ⟨"B", [], ["A"]⟩, ⟨"A", [], []⟩], [], [], []⟩,
            ⟨[⟨"A", [], []⟩, ⟨"B", [], ["A"]⟩], [("public.kern2.g", ["A", "B"])], [], []⟩,
            ["B", "A"], ["A"], ({"A", "X", "B"} : Finset String), [], []⟩ ∧
    (["B"] : List Glyph).isEmpty = false ∧
    ((MergerState.mk
        ⟨[⟨"X", [65], []⟩, ⟨"B", [], ["A"]⟩, ⟨"A", [], []⟩], [], [], []⟩
        ⟨[⟨"A", [], []⟩, ⟨"B", [], ["A"]⟩], [("public.kern2.g", ["A", "B"])], [], []⟩
        ["B", "A"] ["A"] ({"A", "X", "B"} : Finset String) [] []).ufo2.groups
      = slimDonorGroups
          (MergerState.mk
            ⟨[⟨"X", [65], []⟩, ⟨"B", [], ["A"]⟩, ⟨"A", [], []⟩], [], [], []⟩
            ⟨[⟨"A", [], []⟩, ⟨"B", [], ["A"]⟩], [("public.kern2.g", ["A", "B"])], [], []⟩
            ["B", "A"] ["A"] ({"A", "X", "B"} : Finset String) [] []).final_glyphset
          (MergerState.mk
            ⟨[⟨"X", [65], []⟩], [], [], []⟩
            ⟨[⟨"A", [65], []⟩, ⟨"B", [], ["A"]⟩],
              [("public.kern2.g", ["A", "B", "D"])], [], []⟩
            ["B"] ["A"] ({"X", "B"} : Finset String) [] []).ufo2.groups ∧
      (∀ p ∈ (MergerState.mk
          ⟨[⟨"X", [65], []⟩, ⟨"B", [], ["A"]⟩, ⟨"A", [], []⟩], [], [], []⟩
          ⟨[⟨"A", [], []⟩, ⟨"B", [], ["A"]⟩], [("public.kern2.g", ["A", "B"])], [], []⟩
          ["B", "A"] ["A"] ({"A", "X", "B"} : Finset String) [] []).ufo2.groups,
        ∀ g ∈ p.2, g ∈ (MergerState.mk
          ⟨[⟨"X", [65], []⟩, ⟨"B", [], ["A"]⟩, ⟨"A", [], []⟩], [], [], []⟩
          ⟨[⟨"A", [], []⟩, ⟨"B", [], ["A"]⟩], [("public.kern2.g", ["A", "B"])], [], []⟩
          ["B", "A"] ["A"] ({"A", "X", "B"} : Finset String) [] []).final_glyphset) ∧
      (∀ grec ∈ (MergerState.mk
          ⟨[⟨"X", [65], []⟩, ⟨"B", [], ["A"]⟩, ⟨"A", [], []⟩], [], [], []⟩
          ⟨[⟨"A", [], []⟩, ⟨"B", [], ["A"]⟩], [("public.kern2.g", ["A", "B"])], [], []⟩
          ["B", "A"] ["A"] ({"A", "X", "B"} : Finset String) [] []).ufo2.glyphs,
        grec.name ∈ (MergerState.mk
          ⟨[⟨"X", [65], []⟩, ⟨"B", [], ["A"]⟩, ⟨"A", [], []⟩], [], [], []⟩
          ⟨[⟨"A", [], []⟩, ⟨"B", [], ["A"]⟩], [("public.kern2.g", ["A", "B"])], [], []⟩
          ["B", "A"] ["A"] ({"A", "X", "B"} : Finset String) [] []).blacklisted →
        grec.name ∈ (MergerState.mk
          ⟨[⟨"X", [65], []⟩, ⟨"B", [], ["A"]⟩, ⟨"A", [], []⟩], [], [], []⟩
          ⟨[⟨"A", [], []⟩, ⟨"B", [], ["A"]⟩], [("public.kern2.g", ["A", "B"])], [], []⟩
          ["B", "A"] ["A"] ({"A", "X", "B"} : Finset String) [] []).incoming →
        grec.unicodes = [])) :=
  ⟨by rfl, by decide,
    merge_mutates_donor ⟨["B"], [], [65], "subset", "skip"⟩
      ⟨⟨[⟨"X", [65], []⟩], [], [], []⟩,
       ⟨[⟨"A", [65], []⟩, ⟨"B", [], ["A"]⟩], [("public.kern2.g", ["A", "B", "D"])], [], []⟩,
       ["B"], ["A"], ({"X", "B"} : Finset String), [], []⟩
      ⟨⟨[⟨"X", [65], []⟩, ⟨"B", [], ["A"]⟩, ⟨"A", [], []⟩], [], [], []⟩,
       ⟨[⟨"A", [], []⟩, ⟨"B", [], ["A"]⟩], [("public.kern2.g", ["A", "B"])], [], []⟩,
       ["B", "A"], ["A"], ({"A", "X", "B"} : Finset String), [], []⟩
      (by rfl) (by decide)⟩

theorem find?_heapUpdate (name : String) (objId : Nat) :
    ∀ refs : HeapRefs,
      (refs.map (fun p => if p.1 = name then (p.1, p.2 ++ [objId]) else p)).find?
          (fun p => p.1 = name)
        = (refs.find? (fun p => p.1 = name)).map
            (fun p => if p.1 = name then (p.1, p.2 ++ [objId]) else p) := by
  intro refs
  induction refs with
  | nil => rfl
  | cons a rest ih =>
      by_cases ha : a.1 = name
      · simp [List.find?, ha]
      · simp only [List.map_cons, List.find?, if_neg ha, decide_eq_false ha]
        exact ih

theorem heapRefsLookup_heapRefsAdd (refs : HeapRefs) (name : String) (objId : Nat) :
    heapRefsLookup (heapRefsAdd refs name objId) name
      = heapRefsLookup refs name ++ [objId] := by
  unfold heapRefsAdd
  split
  · rename_i hany
    unfold heapRefsLookup
    rw [find?_heapUpdate]
    obtain ⟨p, hp, hpn⟩ := List.any_eq_true.mp hany
    cases hf : refs.find? (fun p => p.1 = name) with
    | none =>
        rw [List.find?_eq_none] at hf
        exact absurd hpn (by simpa using hf p hp)
    | some q =>
        have hq : q.1 = name := by simpa using List.find?_some hf
        simp [hq]
  · rename_i hany
    unfold heapRefsLookup
    rw [List.find?_append]
    have hnone : refs.find? (fun p => p.1 = name) = none := by
      rw [List.find?_eq_none]
      intro p hp
      simp only [Bool.not_eq_true, List.any_eq_false] at hany
      simp [hany p hp]
    rw [hnone]
    simp [List.find?, heapRefsLookup, hnone]

theorem heapGetD_append_length (l : ClassHeap) (x d : GlyphClassDefinitionObj) :
    (l ++ [x]).getD l.length d = x := by
  induction l with
  | nil => rfl
  | cons a rest ih => exact ih

theorem heapGetD_append_lt (l l' : ClassHeap) (d : GlyphClassDefinitionObj) :
    ∀ i, i < l.length → (l ++ l').getD i d = l.getD i d := by
  induction l with
  | nil => intro i hi; cases hi
  | cons a rest ih =>
      intro i hi
      cases i with
      | zero => rfl
      | succ j =>
          have hj : j < rest.length := Nat.lt_of_succ_lt_succ hi
          simpa using ih j hj

/-- C3: filtering a named-class reference never mutates the shared
definition object in place: the store's existing objects are unchanged
by every call (the original definition's glyph list included); for a
`GlyphClassName` the result is a freshly allocated deep copy, renamed
with the per-site copy count and filtered, and the copy is recorded in
the per-merge reference table; two successive call sites referencing
the same definition get copies with distinct identities and distinct
minted names. -/
theorem filter_glyph_container_no_shared_mutation
    (gset : GlyphSet) (heap : ClassHeap) (refs : HeapRefs) :
    (∀ c : HeapContainer,
      (filterGlyphContainerHeap gset heap refs c).2.1.take heap.length = heap) ∧
    (∀ ref : Nat, ref < heap.length →
      (filterGlyphContainerHeap gset heap refs (.glyphClassName ref)).2.1
          = heap ++ [⟨(heap.getD ref ⟨"", []⟩).name ++ "_"
              ++ Nat.repr (heapRefsLookup refs (heap.getD ref ⟨"", []⟩).name).length,
              filterGlyphs gset (heap.getD ref ⟨"", []⟩).glyphs⟩] ∧
      (filterGlyphContainerHeap gset heap refs (.glyphClassName ref)).2.2
          = heapRefsAdd refs (heap.getD ref ⟨"", []⟩).name heap.length ∧
      ((filterGlyphContainerHeap gset heap refs (.glyphClassName ref)).2.1.getD
            heap.length ⟨"", []⟩).name
        ≠ ((filterGlyphContainerHeap gset
              (filterGlyphContainerHeap gset heap refs (.glyphClassName ref)).2.1
              (filterGlyphContainerHeap gset heap refs (.glyphClassName ref)).2.2
              (.glyphClassName ref)).2.1.getD
            (filterGlyphContainerHeap gset heap refs (.glyphClassName ref)).2.1.length
            ⟨"", []⟩).name ∧
      heap.length
        ≠ (filterGlyphContainerHeap gset heap refs (.glyphClassName ref)).2.1.length) := by
  constructor
  · intro c
    cases c with
    | glyphName g => exact List.take_length heap
    | glyphClass gs => exact List.take_length heap
    | glyphClassName ref =>
        show (heap ++ [_]).take heap.length = heap
        exact List.take_left heap _
    | markClassName n gs => exact List.take_length heap
  · intro ref href
    refine ⟨rfl, rfl, ?_, ?_⟩
    · show ((heap ++ [_]).getD heap.length ⟨"", []⟩).name ≠ _
      rw [heapGetD_append_length]
      show _ ≠ (((heap ++ [_]) ++ [_]).getD (heap ++ [_]).length ⟨"", []⟩).name
      rw [heapGetD_append_length]
      show (heap.getD ref ⟨"", []⟩).name ++ "_"
            ++ Nat.repr (heapRefsLookup refs (heap.getD ref ⟨"", []⟩).name).length
          ≠ ((heap ++ [_]).getD ref ⟨"", []⟩).name ++ "_"
            ++ Nat.repr (heapRefsLookup
                (heapRefsAdd refs (heap.getD ref ⟨"", []⟩).name heap.length)
                ((heap ++ [_]).getD ref ⟨"", []⟩).name).length
      rw [heapGetD_append_lt heap _ _ ref href, heapRefsLookup_heapRefsAdd]
      intro heq
      have := repr_suffix_inj ((heap.getD ref ⟨"", []⟩).name ++ "_") heq
      simp at this
    · show heap.length ≠ (heap ++ [_]).length
      simp

/-- Witness for C3: one store holding the class `CL = [a, b]`, filtered
against the glyph set `a` at two reference sites: the original object
survives untouched, the copies are `CL_0` and `CL_1`. -/
theorem filter_glyph_container_no_shared_mutation_witness :
    0 < ([⟨"CL", ["a", "b"]⟩] : ClassHeap).length ∧
    ((filterGlyphContainerHeap ({"a"} : Finset String) ([⟨"CL", ["a", "b"]⟩] : ClassHeap) ([] : HeapRefs) (.glyphClassName 0)).2.1
        = ([⟨"CL", ["a", "b"]⟩] : ClassHeap) ++ [⟨(([⟨"CL", ["a", "b"]⟩] : ClassHeap).getD 0 ⟨"", []⟩).name ++ "_"
            ++ Nat.repr (heapRefsLookup ([] : HeapRefs) (([⟨"CL", ["a", "b"]⟩] : ClassHeap).getD 0 ⟨"", []⟩).name).length,
            filterGlyphs ({"a"} : Finset String) (([⟨"CL", ["a", "b"]⟩] : ClassHeap).getD 0 ⟨"", []⟩).glyphs⟩] ∧
      (filterGlyphContainerHeap ({"a"} : Finset String) ([⟨"CL", ["a", "b"]⟩] : ClassHeap) ([] : HeapRefs) (.glyphClassName 0)).2.2
        = heapRefsAdd ([] : HeapRefs) (([⟨"CL", ["a", "b"]⟩] : ClassHeap).getD 0 ⟨"", []⟩).name ([⟨"CL", ["a", "b"]⟩] : ClassHeap).length ∧
      ((filterGlyphContainerHeap ({"a"} : Finset String) ([⟨"CL", ["a", "b"]⟩] : ClassHeap) ([] : HeapRefs) (.glyphClassName 0)).2.1.getD
            ([⟨"CL", ["a", "b"]⟩] : ClassHeap).length ⟨"", []⟩).name
        ≠ ((filterGlyphContainerHeap ({"a"} : Finset String)
              (filterGlyphContainerHeap ({"a"} : Finset String) ([⟨"CL", ["a", "b"]⟩] : ClassHeap) ([] : HeapRefs) (.glyphClassName 0)).2.1
              (filterGlyphContainerHeap ({"a"} : Finset String) ([⟨"CL", ["a", "b"]⟩] : ClassHeap) ([] : HeapRefs) (.glyphClassName 0)).2.2
              (.glyphClassName 0)).2.1.getD
            (filterGlyphContainerHeap ({"a"} : Finset String) ([⟨"CL", ["a", "b"]⟩] : ClassHeap) ([] : HeapRefs) (.glyphClassName 0)).2.1.length
            ⟨"", []⟩).name ∧
      ([⟨"CL", ["a", "b"]⟩] : ClassHeap).length
        ≠ (filterGlyphContainerHeap ({"a"} : Finset String) ([⟨"CL", ["a", "b"]⟩] : ClassHeap) ([] : HeapRefs) (.glyphClassName 0)).2.1.length) :=
  ⟨by decide,
    (filter_glyph_container_no_shared_mutation ({"a"} : Finset String) ([⟨"CL", ["a", "b"]⟩] : ClassHeap) ([] : HeapRefs)).2 0 (by decide)⟩

theorem getD_mem_of_lt {α : Type _} (l : List α) (d : α) :
    ∀ i, i < l.length → l.getD i d ∈ l := by
  induction l with
  | nil => intro i hi; cases hi
  | cons a rest ih =>
      intro i hi
      cases i with
      | zero => exact List.mem_cons_self _ _
      | succ j => exact List.mem_cons_of_mem _ (ih j (Nat.lt_of_succ_lt_succ hi))

theorem enumFrom_getD_mem {α : Type _} (d : α) :
    ∀ (l : List α) (s i : Nat), i < l.length → (s + i, l.getD i d) ∈ l.enumFrom s := by
  intro l
  induction l with
  | nil => intro s i hi; cases hi
  | cons a rest ih =>
      intro s i hi
      cases i with
      | zero => simp [List.enumFrom]
      | succ j =>
          have := ih (s + 1) j (Nat.lt_of_succ_lt_succ hi)
          simp only [List.enumFrom]
          right
          simpa [Nat.add_assoc, Nat.add_comm 1 j] using this

theorem enum_getD_mem {α : Type _} (d : α) (l : List α) (i : Nat) (hi : i < l.length) :
    (i, l.getD i d) ∈ l.enum := by
  have := enumFrom_getD_mem d l 0 i hi
  simpa [List.enum] using this

theorem foldl_groupKeys_mono (x : List Glyph) :
    ∀ (sites acc : List (List Glyph)), x ∈ acc →
      x ∈ sites.foldl
        (fun acc c => if sortGlyphs c ∈ acc then acc else acc ++ [sortGlyphs c]) acc := by
  intro sites
  induction sites with
  | nil => intro acc h; exact h
  | cons s rest ih =>
      intro acc h
      rw [List.foldl_cons]
      split
      · exact ih acc h
      · exact ih _ (List.mem_append_left _ h)

theorem foldl_groupKeys_mem (c : List Glyph) :
    ∀ (sites acc : List (List Glyph)), c ∈ sites →
      sortGlyphs c ∈ sites.foldl
        (fun acc c => if sortGlyphs c ∈ acc then acc else acc ++ [sortGlyphs c]) acc := by
  intro sites
  induction sites with
  | nil => intro acc h; cases h
  | cons s rest ih =>
      intro acc h
      rw [List.foldl_cons]
      rcases List.mem_cons.mp h with rfl | h
      · split
        · rename_i hin
          exact foldl_groupKeys_mono _ rest acc hin
        · exact foldl_groupKeys_mono _ rest _ (by simp)
      · exact ih _ h

theorem groupKeys_mem (sites : List (List Glyph)) (c : List Glyph) (h : c ∈ sites) :
    sortGlyphs c ∈ groupKeys sites :=
  foldl_groupKeys_mem c sites [] h

theorem foldl_groupKeys_nodup :
    ∀ (sites acc : List (List Glyph)), acc.Nodup →
      (sites.foldl
        (fun acc c => if sortGlyphs c ∈ acc then acc else acc ++ [sortGlyphs c]) acc).Nodup := by
  intro sites
  induction sites with
  | nil => intro acc h; exact h
  | cons s rest ih =>
      intro acc h
      rw [List.foldl_cons]
      split
      · exact ih acc h
      · rename_i hnin
        refine ih _ ?_
        simp [List.nodup_append, h, hnin]

theorem groupKeys_nodup (sites : List (List Glyph)) : (groupKeys sites).Nodup :=
  foldl_groupKeys_nodup sites [] List.nodup_nil

theorem getD_map_lt {α β : Type _} (f : α → β) (l : List α) (d : α) (d' : β) :
    ∀ i, i < l.length → (l.map f).getD i d' = f (l.getD i d) := by
  induction l with
  | nil => intro i hi; cases hi
  | cons a rest ih =>
      intro i hi
      cases i with
      | zero => rfl
      | succ j => exact ih j (Nat.lt_of_succ_lt_succ hi)

theorem keyIndex_lt_length :
    ∀ (keys : List (List Glyph)) (k : List Glyph), k ∈ keys →
      keyIndex keys k < keys.length := by
  intro keys
  induction keys with
  | nil => intro k h; cases h
  | cons a rest ih =>
      intro k h
      simp only [keyIndex]
      split
      · exact Nat.succ_pos _
      · rename_i hne
        rcases List.mem_cons.mp h with rfl | h
        · exact absurd rfl hne
        · exact Nat.succ_lt_succ (ih k h)

theorem keyIndex_getD :
    ∀ (keys : List (List Glyph)) (k : List Glyph), k ∈ keys →
      keys.getD (keyIndex keys k) [] = k := by
  intro keys
  induction keys with
  | nil => intro k h; cases h
  | cons a rest ih =>
      intro k h
      simp only [keyIndex]
      split
      · assumption
      · rename_i hne
        rcases List.mem_cons.mp h with rfl | h
        · exact absurd rfl hne
        · exact ih k h

/-- C4: class deduplication groups the reference sites of one original
class name by sorted filtered content: each site gets a repointed name,
one definition is emitted per distinct content (no duplicates), two
sites share a name exactly when their sorted contents agree, the
original name is reused when a single content group remains, and every
site's repointed name is the name of an emitted definition holding that
site's sorted content. -/
theorem dedup_class_defs_sound (className : String) (sites : List (List Glyph)) :
    (dedupClassDefsFor className sites).2.length = sites.length ∧
    (dedupClassDefsFor className sites).1.length = (groupKeys sites).length ∧
    (groupKeys sites).Nodup ∧
    (∀ i j : Nat, i < sites.length → j < sites.length →
      (sortGlyphs (sites.getD i []) = sortGlyphs (sites.getD j []) ↔
        (dedupClassDefsFor className sites).2.getD i ""
          = (dedupClassDefsFor className sites).2.getD j "")) ∧
    ((groupKeys sites).length = 1 →
      ∀ n ∈ (dedupClassDefsFor className sites).2, n = className) ∧
    (∀ i : Nat, i < sites.length →
      ((dedupClassDefsFor className sites).2.getD i "",
        sortGlyphs (sites.getD i [])) ∈ (dedupClassDefsFor className sites).1) := by
  refine ⟨by simp [dedupClassDefsFor], by simp [dedupClassDefsFor, List.enum_length],
    groupKeys_nodup sites, ?_, ?_, ?_⟩
  · intro i j hi hj
    have hni : (dedupClassDefsFor className sites).2.getD i ""
        = mintedClassName className (groupKeys sites).length
            (keyIndex (groupKeys sites) (sortGlyphs (sites.getD i []))) :=
      getD_map_lt _ sites [] "" i hi
    have hnj : (dedupClassDefsFor className sites).2.getD j ""
        = mintedClassName className (groupKeys sites).length
            (keyIndex (groupKeys sites) (sortGlyphs (sites.getD j []))) :=
      getD_map_lt _ sites [] "" j hj
    rw [hni, hnj]
    constructor
    · intro h
      rw [h]
    · intro h
      have hki : sortGlyphs (sites.getD i []) ∈ groupKeys sites :=
        groupKeys_mem sites _ (getD_mem_of_lt sites [] i hi)
      have hkj : sortGlyphs (sites.getD j []) ∈ groupKeys sites :=
        groupKeys_mem sites _ (getD_mem_of_lt sites [] j hj)
      by_cases hN : (groupKeys sites).length = 1
      · obtain ⟨a, ha⟩ := List.length_eq_one.mp hN
        rw [ha] at hki hkj
        rw [List.mem_singleton.mp hki, List.mem_singleton.mp hkj]
      · rw [mintedClassName, if_neg hN, mintedClassName, if_neg hN] at h
        have hidx := repr_suffix_inj (className ++ "_") h
        have hidx2 : keyIndex (groupKeys sites) (sortGlyphs (sites.getD i []))
            = keyIndex (groupKeys sites) (sortGlyphs (sites.getD j [])) :=
          Nat.succ_injective hidx
        have h1 := keyIndex_getD (groupKeys sites) _ hki
        have h2 := keyIndex_getD (groupKeys sites) _ hkj
        rw [← h1, ← h2, hidx2]
  · intro h1 n hn
    simp only [dedupClassDefsFor, List.mem_map] at hn
    obtain ⟨c, hc, rfl⟩ := hn
    simp [mintedClassName, h1]
  · intro i hi
    have hni : (dedupClassDefsFor className sites).2.getD i ""
        = mintedClassName className (groupKeys sites).length
            (keyIndex (groupKeys sites) (sortGlyphs (sites.getD i []))) :=
      getD_map_lt _ sites [] "" i hi
    rw [hni]
    have hki : sortGlyphs (sites.getD i []) ∈ groupKeys sites :=
      groupKeys_mem sites _ (getD_mem_of_lt sites [] i hi)
    have hlt : keyIndex (groupKeys sites) (sortGlyphs (sites.getD i []))
        < (groupKeys sites).length := keyIndex_lt_length (groupKeys sites) _ hki
    have henum := enum_getD_mem ([] : List Glyph) (groupKeys sites)
      (keyIndex (groupKeys sites) (sortGlyphs (sites.getD i []))) hlt
    rw [keyIndex_getD (groupKeys sites) _ hki] at henum
    exact List.mem_map.mpr ⟨_, henum, rfl⟩

/-- Witness for C4: three sites of class `CL` with contents
`[b, a]`, `[a, b]`, `[c]` — the first two share a definition (equal
sorted content), the third gets a distinct one, and each repointed name
names an emitted definition with the site's sorted content. -/
theorem dedup_class_defs_sound_witness :
    (0 < ([["b", "a"], ["a", "b"], ["c"]] : List (List Glyph)).length ∧ 1 < ([["b", "a"], ["a", "b"], ["c"]] : List (List Glyph)).length ∧ 2 < ([["b", "a"], ["a", "b"], ["c"]] : List (List Glyph)).length) ∧
    (sortGlyphs (([["b", "a"], ["a", "b"], ["c"]] : List (List Glyph)).getD 0 []) = sortGlyphs (([["b", "a"], ["a", "b"], ["c"]] : List (List Glyph)).getD 1 []) ↔
      (dedupClassDefsFor "CL" ([["b", "a"], ["a", "b"], ["c"]] : List (List Glyph))).2.getD 0 ""
        = (dedupClassDefsFor "CL" ([["b", "a"], ["a", "b"], ["c"]] : List (List Glyph))).2.getD 1 "") ∧
    (sortGlyphs (([["b", "a"], ["a", "b"], ["c"]] : List (List Glyph)).getD 0 []) = sortGlyphs (([["b", "a"], ["a", "b"], ["c"]] : List (List Glyph)).getD 2 []) ↔
      (dedupClassDefsFor "CL" ([["b", "a"], ["a", "b"], ["c"]] : List (List Glyph))).2.getD 0 ""
        = (dedupClassDefsFor "CL" ([["b", "a"], ["a", "b"], ["c"]] : List (List Glyph))).2.getD 2 "") ∧
    ((dedupClassDefsFor "CL" ([["b", "a"], ["a", "b"], ["c"]] : List (List Glyph))).2.getD 0 "", sortGlyphs (([["b", "a"], ["a", "b"], ["c"]] : List (List Glyph)).getD 0 []))
      ∈ (dedupClassDefsFor "CL" ([["b", "a"], ["a", "b"], ["c"]] : List (List Glyph))).1 :=
  ⟨⟨by decide, by decide, by decide⟩,
    (dedup_class_defs_sound "CL" ([["b", "a"], ["a", "b"], ["c"]] : List (List Glyph))).2.2.2.1 0 1 (by decide) (by decide),
    (dedup_class_defs_sound "CL" ([["b", "a"], ["a", "b"], ["c"]] : List (List Glyph))).2.2.2.1 0 2 (by decide) (by decide),
    (dedup_class_defs_sound "CL" ([["b", "a"], ["a", "b"], ["c"]] : List (List Glyph))).2.2.2.2.2 0 (by decide)⟩
